import Mathlib

/-!
Shading step of the CUDA path tracer.

A shallow embedding of `src/cudaUtility.h`, `src/material.h` and
`src/interactions.h`.

The C++ code computes in `float`.  Every definition below is written over an
arbitrary linearly ordered field `α`, so that it runs on rationals and can be
reasoned about over the reals.  What the code takes from outside the three
files is passed in as a parameter, under the name the code uses:

* `sqrt`, `cos`, `sin`    the C math library functions;
* `TWO_PI`, `SQRT_OF_ONE_THIRD`    constants of a header that is not part of
  the excerpt;
* `makeOffsetedRay`    the ray constructor of `intersections.h`.  Where a claim
  is about what this helper returns, the definition `makeOffsetedRay` below,
  written in the words of the spec, takes the place of the parameter.

The theorems instantiate `α` with `ℝ`, `sqrt` with `Real.sqrt`, `cos` and `sin`
with `Real.cos` and `Real.sin`.
-/

namespace PathTracer

/-! ## Vectors (`glm::vec3`) -/

/-- Three components, as in `glm::vec3`. -/
@[ext]
structure Vec3 (α : Type) where
  x : α
  y : α
  z : α
deriving DecidableEq, Repr

namespace Vec3

variable {α : Type} [LinearOrderedField α]

/-- Component-wise sum, `a + b` of glm. -/
instance : Add (Vec3 α) := ⟨fun a b => ⟨a.x + b.x, a.y + b.y, a.z + b.z⟩⟩

/-- Component-wise difference, `a - b` of glm. -/
instance : Sub (Vec3 α) := ⟨fun a b => ⟨a.x - b.x, a.y - b.y, a.z - b.z⟩⟩

/-- Component-wise product, `a * b` of glm (used for colours). -/
instance : Mul (Vec3 α) := ⟨fun a b => ⟨a.x * b.x, a.y * b.y, a.z * b.z⟩⟩

/-- Component-wise negation, `-a` of glm. -/
instance : Neg (Vec3 α) := ⟨fun a => ⟨-a.x, -a.y, -a.z⟩⟩

/-- Scalar times vector, `s * v` of glm. -/
instance : SMul α (Vec3 α) := ⟨fun s v => ⟨s * v.x, s * v.y, s * v.z⟩⟩

/-- The vector `glm::vec3(0)`. -/
instance : Zero (Vec3 α) := ⟨⟨0, 0, 0⟩⟩

/-- Inner product, `glm::dot`. -/
def dot (a b : Vec3 α) : α := a.x * b.x + a.y * b.y + a.z * b.z

/-- Vector product, `glm::cross`. -/
def cross (a b : Vec3 α) : Vec3 α :=
  ⟨a.y * b.z - b.y * a.z, a.z * b.x - b.z * a.x, a.x * b.y - b.x * a.y⟩

/-- Euclidean length, `glm::length`: `sqrt(dot(v, v))`. -/
def length (sqrt : α → α) (v : Vec3 α) : α := sqrt (dot v v)

/-- Rescaling to unit length, `glm::normalize`: `v * inversesqrt(dot(v, v))`. -/
def normalize (sqrt : α → α) (v : Vec3 α) : Vec3 α := (1 / sqrt (dot v v)) • v

/-- Mirror image of the incident vector `I` about the plane with normal `N`,
`glm::reflect`: `I - N * dot(N, I) * 2`. -/
def reflect (I N : Vec3 α) : Vec3 α := I - (dot N I * 2) • N

/-- Refraction vector, `glm::refract`: with `k = 1 - eta² (1 - dot(N, I)²)` it is
`eta * I - (eta * dot(N, I) + sqrt(k)) * N` when `k >= 0` and the zero vector
otherwise. -/
def refract (sqrt : α → α) (I N : Vec3 α) (eta : α) : Vec3 α :=
  let dotValue := dot N I
  let k := 1 - eta * eta * (1 - dotValue * dotValue)
  if k ≥ 0 then eta • I - (eta * dotValue + sqrt k) • N else 0

end Vec3

open Vec3

variable {α : Type} [LinearOrderedField α]

/-! ## `cudaUtility.h` -/

/-- Whether some component is strictly positive (`cudaUtility.h`, lines 6-9). -/
def vecElementPositive (vec : Vec3 α) : Bool :=
  decide (vec.x > 0 ∨ vec.y > 0 ∨ vec.z > 0)

/-- Unpolarised Fresnel reflectance (`cudaUtility.h`, lines 11-27). -/
def fresnel (sqrt : α → α) (cosThetaI RelIOR : α) : α :=
  if RelIOR = 1 then 0
  else
    let sinThetaOSqr := RelIOR * RelIOR * (1 - cosThetaI * cosThetaI)
    if sinThetaOSqr > 1 then 1
    else
      let cosThetaO := sqrt (1 - sinThetaOSqr)
      let Rs := (RelIOR * cosThetaI - cosThetaO) / (RelIOR * cosThetaI + cosThetaO)
      let Rp := (cosThetaI - RelIOR * cosThetaO) / (cosThetaI + RelIOR * cosThetaO)
      (Rs * Rs + Rp * Rp) / 2

/-! ## `material.h` -/

/-- The record `Material` (`material.h`, lines 7-19); `type` is a plain `int`. -/
structure Material (α : Type) where
  type : Int
  albedo : Vec3 α
  emittance : Vec3 α
  indexOfRefraction : α

/-- Enumerator `Material::Type::Diffuse`. -/
def Material.Diffuse : Int := 0

/-- Enumerator `Material::Type::Mirror`. -/
def Material.Mirror : Int := 1

/-- Enumerator `Material::Type::Dielectric`. -/
def Material.Dielectric : Int := 2

/-! ## Path state and random source -/

/-- Modelled from the spec: the record `Ray`, declared in a header outside the
excerpt; the spec gives it an origin and a direction. -/
structure Ray (α : Type) where
  origin : Vec3 α
  direction : Vec3 α

/-- Modelled from the spec: the record `PathSegment`, declared in a header
outside the excerpt; the spec lists the current ray, the throughput, the
radiance and the integer bounce budget. -/
structure PathSegment (α : Type) where
  ray : Ray α
  throughput : Vec3 α
  radiance : Vec3 α
  remainingBounces : Int

/-- The random engine handed to the code by reference: the sequence of variates
it will produce and how many of them were drawn so far. -/
structure RandomEngine (α : Type) where
  stream : Nat → α
  drawn : Nat

/-- One draw `u01(rng)`: the next variate and the advanced engine. -/
def u01 (rng : RandomEngine α) : α × RandomEngine α :=
  (rng.stream rng.drawn, ⟨rng.stream, rng.drawn + 1⟩)

/-! ## `interactions.h` -/

/-- The world axis chosen as `directionNotNormal` (`interactions.h`,
lines 24-31). -/
def directionNotNormal (SQRT_OF_ONE_THIRD : α) (normal : Vec3 α) : Vec3 α :=
  if |normal.x| < SQRT_OF_ONE_THIRD then ⟨1, 0, 0⟩
  else if |normal.y| < SQRT_OF_ONE_THIRD then ⟨0, 1, 0⟩
  else ⟨0, 0, 1⟩

/-- The local `perpendicularDirection1` (`interactions.h`, lines 34-35). -/
def perpendicularDirection1 (sqrt : α → α) (SQRT_OF_ONE_THIRD : α) (normal : Vec3 α) :
    Vec3 α :=
  normalize sqrt (cross normal (directionNotNormal SQRT_OF_ONE_THIRD normal))

/-- The local `perpendicularDirection2` (`interactions.h`, lines 36-37). -/
def perpendicularDirection2 (sqrt : α → α) (SQRT_OF_ONE_THIRD : α) (normal : Vec3 α) :
    Vec3 α :=
  normalize sqrt (cross normal (perpendicularDirection1 sqrt SQRT_OF_ONE_THIRD normal))

/-- Cosine-weighted direction about `normal` (`interactions.h`, lines 10-42).
Returns the direction and the engine after the draws. -/
def calculateRandomDirectionInHemisphere (sqrt cos sin : α → α)
    (TWO_PI SQRT_OF_ONE_THIRD : α) (normal : Vec3 α) (rng : RandomEngine α) :
    Vec3 α × RandomEngine α :=
  let d1 := u01 rng
  let up := sqrt d1.1
  let over := sqrt (1 - up * up)
  let d2 := u01 d1.2
  let around := d2.1 * TWO_PI
  (up • normal
      + (cos around * over) • perpendicularDirection1 sqrt SQRT_OF_ONE_THIRD normal
      + (sin around * over) • perpendicularDirection2 sqrt SQRT_OF_ONE_THIRD normal,
    d2.2)

/-- One bounce (`interactions.h`, lines 69-121).  The code updates `pathSegment`
and `rng` in place; here both are returned. -/
def scatterRay (sqrt cos sin : α → α) (TWO_PI SQRT_OF_ONE_THIRD : α)
    (makeOffsetedRay : Vec3 α → Vec3 α → Ray α)
    (pathSegment : PathSegment α) (intersect normal : Vec3 α) (outside : Bool)
    (mat : Material α) (rng : RandomEngine α) : PathSegment α × RandomEngine α :=
  let radiance :=
    if vecElementPositive mat.emittance then
      pathSegment.radiance + pathSegment.throughput * mat.emittance
    else pathSegment.radiance
  let inDir := -pathSegment.ray.direction
  if mat.type = Material.Diffuse then
    let s := calculateRandomDirectionInHemisphere sqrt cos sin TWO_PI SQRT_OF_ONE_THIRD
      normal rng
    (⟨makeOffsetedRay intersect s.1, pathSegment.throughput * mat.albedo, radiance,
        pathSegment.remainingBounces - 1⟩, s.2)
  else if mat.type = Material.Mirror then
    let outDir := reflect (-inDir) normal
    (⟨makeOffsetedRay intersect outDir, pathSegment.throughput * mat.albedo, radiance,
        pathSegment.remainingBounces - 1⟩, rng)
  else if mat.type = Material.Dielectric then
    let cosTheta := dot inDir normal
    let IOR := if outside then mat.indexOfRefraction else 1 / mat.indexOfRefraction
    let fresnelTerm := fresnel sqrt cosTheta IOR
    let d := u01 rng
    let outDir :=
      if d.1 ≤ fresnelTerm then reflect (-inDir) normal
      else normalize sqrt (refract sqrt (-inDir) normal IOR)
    (⟨makeOffsetedRay intersect outDir, pathSegment.throughput * mat.albedo, radiance,
        pathSegment.remainingBounces - 1⟩, d.2)
  else
    (⟨pathSegment.ray, pathSegment.throughput, radiance,
        pathSegment.remainingBounces - 1⟩, rng)

/-! ## Parts described by the spec only -/

/-- Modelled from the spec: the helper `makeOffsetedRay` of `intersections.h`,
which is not part of the excerpt.  In the words of the spec it is "given a
surface point and new direction" and "returns a Ray whose origin is nudged along
the surface normal by a small epsilon in the direction that avoids
re-intersecting the originating surface", and the new ray has "direction
outDir".  The surface normal belongs to the geometry subsystem that supplies the
helper and is an argument here; `EPSILON` is the small amount; the side of the
surface the origin is moved to is the side the new direction points to. -/
def makeOffsetedRay (EPSILON : α) (surfaceNormal point direction : Vec3 α) : Ray α :=
  if dot direction surfaceNormal < 0 then
    ⟨point - EPSILON • surfaceNormal, direction⟩
  else ⟨point + EPSILON • surfaceNormal, direction⟩

/-- Specification of the emission step without the gate, in the words of the
spec: "a correct reimplementation may add unconditionally".  The radiance after
adding `throughput ⊙ emittance` whatever the emittance is. -/
def radianceAddedUnconditionally (pathSegment : PathSegment α) (mat : Material α) :
    Vec3 α :=
  pathSegment.radiance + pathSegment.throughput * mat.emittance

/-! ## Auxiliary facts -/

section Components

variable (a b : Vec3 ℝ) (s : ℝ)

@[simp]
theorem Vec3.add_x : (a + b).x = a.x + b.x := rfl

@[simp]
theorem Vec3.add_y : (a + b).y = a.y + b.y := rfl

@[simp]
theorem Vec3.add_z : (a + b).z = a.z + b.z := rfl

@[simp]
theorem Vec3.sub_x : (a - b).x = a.x - b.x := rfl

@[simp]
theorem Vec3.sub_y : (a - b).y = a.y - b.y := rfl

@[simp]
theorem Vec3.sub_z : (a - b).z = a.z - b.z := rfl

@[simp]
theorem Vec3.mul_x : (a * b).x = a.x * b.x := rfl

@[simp]
theorem Vec3.mul_y : (a * b).y = a.y * b.y := rfl

@[simp]
theorem Vec3.mul_z : (a * b).z = a.z * b.z := rfl

@[simp]
theorem Vec3.neg_x : (-a).x = -a.x := rfl

@[simp]
theorem Vec3.neg_y : (-a).y = -a.y := rfl

@[simp]
theorem Vec3.neg_z : (-a).z = -a.z := rfl

@[simp]
theorem Vec3.smul_x : (s • a).x = s * a.x := rfl

@[simp]
theorem Vec3.smul_y : (s • a).y = s * a.y := rfl

@[simp]
theorem Vec3.smul_z : (s • a).z = s * a.z := rfl

@[simp]
theorem Vec3.zero_x : (0 : Vec3 ℝ).x = 0 := rfl

@[simp]
theorem Vec3.zero_y : (0 : Vec3 ℝ).y = 0 := rfl

@[simp]
theorem Vec3.zero_z : (0 : Vec3 ℝ).z = 0 := rfl

end Components

/-- A quotient `(a - b) / (a + b)` with `a > 0`, `b ≥ 0` has square at most one. -/
theorem ratio_mul_self_le_one (a b : ℝ) (ha : 0 < a) (hb : 0 ≤ b) :
    (a - b) / (a + b) * ((a - b) / (a + b)) ≤ 1 := by
  have hab : 0 < a + b := by linarith
  rw [div_mul_div_comm, div_le_one (mul_pos hab hab)]
  nlinarith [mul_nonneg ha.le hb]

/-- The total-internal-reflection test cannot succeed when the index is one. -/
theorem relIOR_ne_one_of_tir (c r : ℝ) (h : r * r * (1 - c * c) > 1) : r ≠ 1 := by
  rintro rfl
  nlinarith [mul_self_nonneg c]

/-- Value of `fresnel` under total internal reflection. -/
theorem fresnel_of_tir (c r : ℝ) (h : r * r * (1 - c * c) > 1) :
    fresnel Real.sqrt c r = 1 := by
  unfold fresnel
  rw [if_neg (relIOR_ne_one_of_tir c r h)]
  simp only [if_pos h]

/-- Value of `fresnel` under total internal reflection, the test written with
squares. -/
theorem fresnel_eq_one_of_sq_test (c r : ℝ)
    (h : r ^ 2 * (1 - c ^ 2) > 1) : fresnel Real.sqrt c r = 1 := by
  apply fresnel_of_tir
  have e : r * r * (1 - c * c) = r ^ 2 * (1 - c ^ 2) := by ring
  rw [e]; exact h

/-- Range of `fresnel` on valid inputs. -/
theorem fresnel_range (c r : ℝ) (hc : 0 < c) (hr : 0 < r) :
    0 ≤ fresnel Real.sqrt c r ∧ fresnel Real.sqrt c r ≤ 1 := by
  unfold fresnel
  by_cases h1 : r = 1
  · rw [if_pos h1]; exact ⟨le_refl 0, zero_le_one⟩
  · rw [if_neg h1]
    by_cases h2 : r * r * (1 - c * c) > 1
    · simp only [if_pos h2]; exact ⟨zero_le_one, le_refl 1⟩
    · simp only [if_neg h2]
      have hco : 0 ≤ Real.sqrt (1 - r * r * (1 - c * c)) := Real.sqrt_nonneg _
      have hs := ratio_mul_self_le_one (r * c) _ (mul_pos hr hc) hco
      have hp := ratio_mul_self_le_one c _ hc (mul_nonneg hr.le hco)
      constructor
      · have := mul_self_nonneg
          ((r * c - Real.sqrt (1 - r * r * (1 - c * c)))
            / (r * c + Real.sqrt (1 - r * r * (1 - c * c))))
        have := mul_self_nonneg
          ((c - r * Real.sqrt (1 - r * r * (1 - c * c)))
            / (c + r * Real.sqrt (1 - r * r * (1 - c * c))))
        linarith
      · linarith

/-! ## Claims about `fresnel` -/

/-- C1. Fresnel bounds: for every `cosThetaI` in `(0,1]` and every `RelIOR > 0`,
`fresnel cosThetaI RelIOR` lies in the closed interval `[0,1]`, the arithmetic
being that of the real numbers. -/
theorem fresnel_bounds (cosThetaI RelIOR : ℝ) (hpos : 0 < cosThetaI)
    (hle : cosThetaI ≤ 1) (hior : 0 < RelIOR) :
    fresnel Real.sqrt cosThetaI RelIOR ∈ Set.Icc (0 : ℝ) 1 := by
  have _ := hle
  exact Set.mem_Icc.mpr (fresnel_range cosThetaI RelIOR hpos hior)

/-- Instance of C1 at normal incidence on an interface of relative index 2. -/
theorem fresnel_bounds_witness :
    (0 : ℝ) < 1 ∧ (1 : ℝ) ≤ 1 ∧ (0 : ℝ) < 2 ∧
      fresnel Real.sqrt (1 : ℝ) 2 ∈ Set.Icc (0 : ℝ) 1 :=
  ⟨by norm_num, le_refl 1, by norm_num,
    fresnel_bounds 1 2 (by norm_num) (le_refl 1) (by norm_num)⟩

/-- C2. Total internal reflection: for every `cosThetaI` and `RelIOR` with
`RelIOR² (1 - cosThetaI²) > 1`, `fresnel` returns exactly 1; the shortcut for
`RelIOR == 1`, which returns 0, cannot fire on such an input. -/
theorem fresnel_total_internal_reflection (cosThetaI RelIOR : ℝ)
    (h : RelIOR ^ 2 * (1 - cosThetaI ^ 2) > 1) :
    fresnel Real.sqrt cosThetaI RelIOR = 1 ∧ RelIOR ≠ 1 := by
  have h' : RelIOR * RelIOR * (1 - cosThetaI * cosThetaI) > 1 := by
    have e : RelIOR * RelIOR * (1 - cosThetaI * cosThetaI)
        = RelIOR ^ 2 * (1 - cosThetaI ^ 2) := by ring
    rw [e]; exact h
  exact ⟨fresnel_of_tir cosThetaI RelIOR h', relIOR_ne_one_of_tir cosThetaI RelIOR h'⟩

/-- Instance of C2: grazing incidence `cosThetaI = 1/2` from the dense side,
`RelIOR = 2`, where `RelIOR² (1 - cosThetaI²) = 3`. -/
theorem fresnel_total_internal_reflection_witness :
    (2 : ℝ) ^ 2 * (1 - (1 / 2 : ℝ) ^ 2) > 1 ∧
      fresnel Real.sqrt (1 / 2 : ℝ) 2 = 1 ∧ (2 : ℝ) ≠ 1 :=
  ⟨by norm_num, fresnel_total_internal_reflection (1 / 2) 2 (by norm_num)⟩

/-- C3. Fresnel identity: for every valid `cosThetaI`, that is in `(0,1]`,
`fresnel cosThetaI 1` returns exactly 0. -/
theorem fresnel_identity (cosThetaI : ℝ) (hpos : 0 < cosThetaI) (hle : cosThetaI ≤ 1) :
    fresnel Real.sqrt cosThetaI 1 = 0 := by
  have _ := hpos
  have _ := hle
  unfold fresnel
  rw [if_pos rfl]

/-- Instance of C3 at `cosThetaI = 1/2`. -/
theorem fresnel_identity_witness :
    (0 : ℝ) < 1 / 2 ∧ (1 / 2 : ℝ) ≤ 1 ∧ fresnel Real.sqrt (1 / 2 : ℝ) 1 = 0 :=
  ⟨by norm_num, by norm_num, fresnel_identity (1 / 2) (by norm_num) (by norm_num)⟩

/-! ## Claims about the bookkeeping of `scatterRay` -/

/-- C4. Emission accumulation: for every path segment, every material of any
type and every random source, the radiance after `scatterRay` is the radiance
before plus the component-wise product of the throughput before the call and
the emittance when some component of the emittance is strictly positive, and is
the radiance before the call otherwise. -/
theorem scatterRay_emission_accumulation (sqrt cos sin : ℝ → ℝ)
    (TWO_PI SQRT_OF_ONE_THIRD : ℝ) (makeOffsetedRay : Vec3 ℝ → Vec3 ℝ → Ray ℝ)
    (pathSegment : PathSegment ℝ) (intersect normal : Vec3 ℝ) (outside : Bool)
    (mat : Material ℝ) (rng : RandomEngine ℝ) :
    ((0 < mat.emittance.x ∨ 0 < mat.emittance.y ∨ 0 < mat.emittance.z) →
      (scatterRay sqrt cos sin TWO_PI SQRT_OF_ONE_THIRD makeOffsetedRay pathSegment
          intersect normal outside mat rng).1.radiance
        = pathSegment.radiance + pathSegment.throughput * mat.emittance) ∧
    (¬ (0 < mat.emittance.x ∨ 0 < mat.emittance.y ∨ 0 < mat.emittance.z) →
      (scatterRay sqrt cos sin TWO_PI SQRT_OF_ONE_THIRD makeOffsetedRay pathSegment
          intersect normal outside mat rng).1.radiance
        = pathSegment.radiance) := by
  constructor
  · intro h
    have hp : vecElementPositive mat.emittance = true := by
      simpa [vecElementPositive] using h
    unfold scatterRay
    split_ifs <;> simp_all
  · intro h
    have hp : vecElementPositive mat.emittance = false := by
      simpa [vecElementPositive] using h
    unfold scatterRay
    split_ifs <;> simp_all

/-- Instance of C4: a mirror with emittance `(1,1,1)` met with throughput
`(0.2,0.3,0.4)` and radiance `(5,6,7)` leaves radiance `(5.2,6.3,7.4)`. -/
theorem scatterRay_emission_accumulation_witness :
    (scatterRay Real.sqrt Real.cos Real.sin (2 * Real.pi) (Real.sqrt (1 / 3))
        (fun o d => ⟨o, d⟩)
        ⟨⟨⟨0, 0, 1⟩, ⟨0, 0, -1⟩⟩, ⟨0.2, 0.3, 0.4⟩, ⟨5, 6, 7⟩, 8⟩
        ⟨0, 0, 0⟩ ⟨0, 0, 1⟩ true
        ⟨Material.Mirror, ⟨0.5, 0.5, 0.5⟩, ⟨1, 1, 1⟩, 1⟩
        ⟨fun _ => 0, 0⟩).1.radiance
      = (⟨5.2, 6.3, 7.4⟩ : Vec3 ℝ) := by
  have h := (scatterRay_emission_accumulation Real.sqrt Real.cos Real.sin (2 * Real.pi)
    (Real.sqrt (1 / 3)) (fun o d => ⟨o, d⟩)
    ⟨⟨⟨0, 0, 1⟩, ⟨0, 0, -1⟩⟩, ⟨0.2, 0.3, 0.4⟩, ⟨5, 6, 7⟩, 8⟩
    ⟨0, 0, 0⟩ ⟨0, 0, 1⟩ true
    ⟨Material.Mirror, ⟨0.5, 0.5, 0.5⟩, ⟨1, 1, 1⟩, 1⟩
    ⟨fun _ => 0, 0⟩).1 (Or.inl one_pos)
  rw [h]
  ext <;> simp <;> norm_num

/-- C5. Throughput update: for every path segment, every material whose type is
Diffuse, Mirror or Dielectric and every random source (so whichever of
reflection and refraction a dielectric selects), the throughput after
`scatterRay` is the throughput before the call multiplied component-wise by the
albedo. -/
theorem scatterRay_throughput_update (sqrt cos sin : ℝ → ℝ)
    (TWO_PI SQRT_OF_ONE_THIRD : ℝ) (makeOffsetedRay : Vec3 ℝ → Vec3 ℝ → Ray ℝ)
    (pathSegment : PathSegment ℝ) (intersect normal : Vec3 ℝ) (outside : Bool)
    (mat : Material ℝ) (rng : RandomEngine ℝ)
    (htype : mat.type = Material.Diffuse ∨ mat.type = Material.Mirror
      ∨ mat.type = Material.Dielectric) :
    (scatterRay sqrt cos sin TWO_PI SQRT_OF_ONE_THIRD makeOffsetedRay pathSegment
        intersect normal outside mat rng).1.throughput
      = pathSegment.throughput * mat.albedo := by
  unfold scatterRay
  rcases htype with h | h | h <;> split_ifs <;> simp_all

/-- Instance of C5: a diffuse material with albedo `(0.5,0.5,0.5)` and emittance
`(0,0,0)`. -/
theorem scatterRay_throughput_update_witness :
    (⟨Material.Diffuse, ⟨0.5, 0.5, 0.5⟩, ⟨0, 0, 0⟩, 1⟩ : Material ℝ).type
        = Material.Diffuse ∧
    (scatterRay Real.sqrt Real.cos Real.sin (2 * Real.pi) (Real.sqrt (1 / 3))
        (fun o d => ⟨o, d⟩)
        ⟨⟨⟨0, 0, 1⟩, ⟨0, 0, -1⟩⟩, ⟨0.2, 0.3, 0.4⟩, ⟨5, 6, 7⟩, 8⟩
        ⟨0, 0, 0⟩ ⟨0, 0, 1⟩ true
        ⟨Material.Diffuse, ⟨0.5, 0.5, 0.5⟩, ⟨0, 0, 0⟩, 1⟩
        ⟨fun _ => 0, 0⟩).1.throughput
      = (⟨0.2, 0.3, 0.4⟩ : Vec3 ℝ) * ⟨0.5, 0.5, 0.5⟩ :=
  ⟨rfl, scatterRay_throughput_update Real.sqrt Real.cos Real.sin (2 * Real.pi)
    (Real.sqrt (1 / 3)) (fun o d => ⟨o, d⟩)
    ⟨⟨⟨0, 0, 1⟩, ⟨0, 0, -1⟩⟩, ⟨0.2, 0.3, 0.4⟩, ⟨5, 6, 7⟩, 8⟩
    ⟨0, 0, 0⟩ ⟨0, 0, 1⟩ true
    ⟨Material.Diffuse, ⟨0.5, 0.5, 0.5⟩, ⟨0, 0, 0⟩, 1⟩
    ⟨fun _ => 0, 0⟩ (Or.inl rfl)⟩

/-- C6. Bounce monotonicity: for every path segment, every value of the material
type, every outside flag and every random source, one call of `scatterRay`
leaves `remainingBounces` equal to its value before the call minus exactly 1,
whichever branch ran, if any. -/
theorem scatterRay_remainingBounces (sqrt cos sin : ℝ → ℝ)
    (TWO_PI SQRT_OF_ONE_THIRD : ℝ) (makeOffsetedRay : Vec3 ℝ → Vec3 ℝ → Ray ℝ)
    (pathSegment : PathSegment ℝ) (intersect normal : Vec3 ℝ) (outside : Bool)
    (mat : Material ℝ) (rng : RandomEngine ℝ) :
    (scatterRay sqrt cos sin TWO_PI SQRT_OF_ONE_THIRD makeOffsetedRay pathSegment
        intersect normal outside mat rng).1.remainingBounces
      = pathSegment.remainingBounces - 1 := by
  unfold scatterRay
  split_ifs <;> rfl

/-! ## Claims about the outgoing direction -/

/-- Negating twice gives the vector back. -/
theorem Vec3.neg_neg_eq (v : Vec3 ℝ) : -(-v) = v := by
  ext <;> simp

/-- A vector of length one has inner square one. -/
theorem Vec3.dot_self_of_length (v : Vec3 ℝ) (h : length Real.sqrt v = 1) :
    dot v v = 1 := by
  unfold length at h
  have h0 : 0 ≤ dot v v := by
    unfold dot
    nlinarith [mul_self_nonneg v.x, mul_self_nonneg v.y, mul_self_nonneg v.z]
  have := Real.mul_self_sqrt h0
  rw [h] at this
  linarith

/-- What `scatterRay` does to the ray for a mirror. -/
theorem scatterRay_mirror_ray (sqrt cos sin : ℝ → ℝ)
    (TWO_PI SQRT_OF_ONE_THIRD : ℝ) (makeOffsetedRay : Vec3 ℝ → Vec3 ℝ → Ray ℝ)
    (pathSegment : PathSegment ℝ) (intersect normal : Vec3 ℝ) (outside : Bool)
    (mat : Material ℝ) (rng : RandomEngine ℝ) (hmirror : mat.type = Material.Mirror) :
    (scatterRay sqrt cos sin TWO_PI SQRT_OF_ONE_THIRD makeOffsetedRay pathSegment
        intersect normal outside mat rng).1.ray
      = makeOffsetedRay intersect (reflect pathSegment.ray.direction normal) := by
  unfold scatterRay
  have h0 : ¬ mat.type = Material.Diffuse := by
    rw [hmirror]; decide
  simp only [if_neg h0, if_pos hmirror, Vec3.neg_neg_eq]

/-- C7. Mirror reflection law: for every Mirror material, incident ray direction
`d` and normal `n`, the direction `scatterRay` hands to the new ray is
`2(-d·n)n - (-d)`, which is `d - 2(d·n)n`; when `n` has length one this direction
is as long as `d` and its inner product with `n` equals `(-d)·n`, so the angle
of reflection equals the angle of incidence. -/
theorem scatterRay_mirror_reflection_law (sqrt cos sin : ℝ → ℝ)
    (TWO_PI SQRT_OF_ONE_THIRD : ℝ) (makeOffsetedRay : Vec3 ℝ → Vec3 ℝ → Ray ℝ)
    (pathSegment : PathSegment ℝ) (intersect normal : Vec3 ℝ) (outside : Bool)
    (mat : Material ℝ) (rng : RandomEngine ℝ) (hmirror : mat.type = Material.Mirror) :
    (scatterRay sqrt cos sin TWO_PI SQRT_OF_ONE_THIRD makeOffsetedRay pathSegment
        intersect normal outside mat rng).1.ray
      = makeOffsetedRay intersect
          ((2 * dot (-pathSegment.ray.direction) normal) • normal
            - (-pathSegment.ray.direction)) ∧
    (2 * dot (-pathSegment.ray.direction) normal) • normal - (-pathSegment.ray.direction)
      = pathSegment.ray.direction - (2 * dot pathSegment.ray.direction normal) • normal ∧
    (length Real.sqrt normal = 1 →
      length Real.sqrt
          ((2 * dot (-pathSegment.ray.direction) normal) • normal
            - (-pathSegment.ray.direction))
        = length Real.sqrt pathSegment.ray.direction ∧
      dot ((2 * dot (-pathSegment.ray.direction) normal) • normal
            - (-pathSegment.ray.direction)) normal
        = dot (-pathSegment.ray.direction) normal) := by
  have e : (2 * dot (-pathSegment.ray.direction) normal) • normal
        - (-pathSegment.ray.direction)
      = reflect pathSegment.ray.direction normal := by
    ext <;> simp [reflect, dot] <;> ring
  refine ⟨?_, ?_, ?_⟩
  · rw [e]
    exact scatterRay_mirror_ray sqrt cos sin TWO_PI SQRT_OF_ONE_THIRD makeOffsetedRay
      pathSegment intersect normal outside mat rng hmirror
  · ext <;> simp [dot] <;> ring
  · intro hunit
    have hn := Vec3.dot_self_of_length normal hunit
    simp only [dot] at hn
    constructor
    · unfold length
      congr 1
      simp only [dot, Vec3.sub_x, Vec3.sub_y, Vec3.sub_z, Vec3.smul_x, Vec3.smul_y,
        Vec3.smul_z, Vec3.neg_x, Vec3.neg_y, Vec3.neg_z]
      linear_combination
        (4 * (pathSegment.ray.direction.x * normal.x + pathSegment.ray.direction.y * normal.y
          + pathSegment.ray.direction.z * normal.z) ^ 2) * hn
    · simp only [dot, Vec3.sub_x, Vec3.sub_y, Vec3.sub_z, Vec3.smul_x, Vec3.smul_y,
        Vec3.smul_z, Vec3.neg_x, Vec3.neg_y, Vec3.neg_z]
      linear_combination
        (-2 * (pathSegment.ray.direction.x * normal.x + pathSegment.ray.direction.y * normal.y
          + pathSegment.ray.direction.z * normal.z)) * hn

/-- Instance of C7: a ray travelling straight down onto a horizontal mirror. -/
theorem scatterRay_mirror_reflection_law_witness :
    (⟨Material.Mirror, ⟨1, 1, 1⟩, ⟨0, 0, 0⟩, 1⟩ : Material ℝ).type = Material.Mirror ∧
    length Real.sqrt (⟨0, 0, 1⟩ : Vec3 ℝ) = 1 ∧
    length Real.sqrt
        ((2 * dot (-(⟨0, 0, -1⟩ : Vec3 ℝ)) ⟨0, 0, 1⟩) • (⟨0, 0, 1⟩ : Vec3 ℝ)
          - (-(⟨0, 0, -1⟩ : Vec3 ℝ)))
      = length Real.sqrt (⟨0, 0, -1⟩ : Vec3 ℝ) ∧
    dot ((2 * dot (-(⟨0, 0, -1⟩ : Vec3 ℝ)) ⟨0, 0, 1⟩) • (⟨0, 0, 1⟩ : Vec3 ℝ)
          - (-(⟨0, 0, -1⟩ : Vec3 ℝ))) ⟨0, 0, 1⟩
      = dot (-(⟨0, 0, -1⟩ : Vec3 ℝ)) ⟨0, 0, 1⟩ :=
  ⟨rfl, by simp [length, dot],
    (scatterRay_mirror_reflection_law Real.sqrt Real.cos Real.sin (2 * Real.pi)
      (Real.sqrt (1 / 3)) (fun o d => ⟨o, d⟩)
      ⟨⟨⟨0, 0, 1⟩, ⟨0, 0, -1⟩⟩, ⟨1, 1, 1⟩, ⟨0, 0, 0⟩, 8⟩
      ⟨0, 0, 0⟩ ⟨0, 0, 1⟩ true
      ⟨Material.Mirror, ⟨1, 1, 1⟩, ⟨0, 0, 0⟩, 1⟩
      ⟨fun _ => 0, 0⟩ rfl).2.2 (by simp [length, dot])⟩

/-- What `scatterRay` does to the ray for a dielectric. -/
theorem scatterRay_dielectric_ray (sqrt cos sin : ℝ → ℝ)
    (TWO_PI SQRT_OF_ONE_THIRD : ℝ) (makeOffsetedRay : Vec3 ℝ → Vec3 ℝ → Ray ℝ)
    (pathSegment : PathSegment ℝ) (intersect normal : Vec3 ℝ) (outside : Bool)
    (mat : Material ℝ) (rng : RandomEngine ℝ)
    (hdielectric : mat.type = Material.Dielectric) :
    (scatterRay sqrt cos sin TWO_PI SQRT_OF_ONE_THIRD makeOffsetedRay pathSegment
        intersect normal outside mat rng).1.ray
      = makeOffsetedRay intersect
          (if (u01 rng).1
              ≤ fresnel sqrt (dot (-pathSegment.ray.direction) normal)
                  (if outside then mat.indexOfRefraction else 1 / mat.indexOfRefraction)
            then reflect pathSegment.ray.direction normal
            else normalize sqrt (refract sqrt pathSegment.ray.direction normal
              (if outside then mat.indexOfRefraction else 1 / mat.indexOfRefraction))) := by
  unfold scatterRay
  have h0 : ¬ mat.type = Material.Diffuse := by
    rw [hdielectric]; decide
  have h1 : ¬ mat.type = Material.Mirror := by
    rw [hdielectric]; decide
  simp only [if_neg h0, if_neg h1, if_pos hdielectric, Vec3.neg_neg_eq]

/-- The mirrored direction leaves on the side of a unit normal the ray came
from. -/
theorem Vec3.dot_reflect_normal (d n : Vec3 ℝ) (hn : dot n n = 1) :
    dot (reflect d n) n = dot (-d) n := by
  simp only [dot] at hn
  simp only [reflect, dot, Vec3.sub_x, Vec3.sub_y, Vec3.sub_z, Vec3.smul_x, Vec3.smul_y,
    Vec3.smul_z, Vec3.neg_x, Vec3.neg_y, Vec3.neg_z]
  linear_combination (-2 * (n.x * d.x + n.y * d.y + n.z * d.z)) * hn

/-- The refraction vector never points to the side of a unit normal the ray came
from. -/
theorem Vec3.dot_refract_normal_nonpos (d n : Vec3 ℝ) (eta : ℝ) (hn : dot n n = 1) :
    dot (refract Real.sqrt d n eta) n ≤ 0 := by
  unfold refract
  simp only [dot] at hn
  by_cases hk : 1 - eta * eta * (1 - dot n d * dot n d) ≥ 0
  · simp only [if_pos hk]
    have hs := Real.sqrt_nonneg (1 - eta * eta * (1 - dot n d * dot n d))
    have e : dot (eta • d - (eta * dot n d
          + Real.sqrt (1 - eta * eta * (1 - dot n d * dot n d))) • n) n
        = -Real.sqrt (1 - eta * eta * (1 - dot n d * dot n d)) := by
      generalize Real.sqrt (1 - eta * eta * (1 - dot n d * dot n d)) = w
      simp only [dot, Vec3.sub_x, Vec3.sub_y, Vec3.sub_z, Vec3.smul_x, Vec3.smul_y,
        Vec3.smul_z]
      linear_combination (-(eta * (n.x * d.x + n.y * d.y + n.z * d.z) + w)) * hn
    rw [e]
    linarith
  · simp only [if_neg hk]
    simp [dot]

/-- Rescaling keeps the side of the normal a vector lies on. -/
theorem Vec3.dot_normalize_nonpos (v n : Vec3 ℝ) (h : dot v n ≤ 0) :
    dot (normalize Real.sqrt v) n ≤ 0 := by
  have e : dot (normalize Real.sqrt v) n = 1 / Real.sqrt (dot v v) * dot v n := by
    simp only [normalize, dot, Vec3.smul_x, Vec3.smul_y, Vec3.smul_z]
    ring
  rw [e]
  have hs : 0 ≤ 1 / Real.sqrt (dot v v) := by
    apply div_nonneg zero_le_one (Real.sqrt_nonneg _)
  exact mul_nonpos_of_nonneg_of_nonpos hs h

/-- The relative index `scatterRay` selects is positive when the stored one is. -/
theorem relIOR_pos (outside : Bool) (ior : ℝ) (h : 0 < ior) :
    0 < (if outside then ior else 1 / ior) := by
  cases outside
  · simpa using h
  · simpa using h

/-- C8. Dielectric branch selection: for every Dielectric material, outside
flag, unit normal and unit ray direction with `cosTheta = inDir·normal` in `(0,1]`
and positive index of refraction, `scatterRay` hands the reflected direction to
the new ray when the drawn variate `u` satisfies `u ≤ fresnel cosTheta relIOR` and
the normalised refracted direction otherwise, `relIOR` being the stored index if
`outside` and its reciprocal otherwise; the two directions differ, so the branch
taken is visible in the result.  Hence `u = 0` always reflects, and `u = 1`
always refracts unless the Fresnel reflectance equals 1. -/
theorem scatterRay_dielectric_branch_selection (cos sin : ℝ → ℝ)
    (TWO_PI SQRT_OF_ONE_THIRD : ℝ) (makeOffsetedRay : Vec3 ℝ → Vec3 ℝ → Ray ℝ)
    (pathSegment : PathSegment ℝ) (intersect normal : Vec3 ℝ) (outside : Bool)
    (mat : Material ℝ) (rng : RandomEngine ℝ)
    (hdielectric : mat.type = Material.Dielectric)
    (hnormal : length Real.sqrt normal = 1)
    (hdir : length Real.sqrt pathSegment.ray.direction = 1)
    (hpos : 0 < dot (-pathSegment.ray.direction) normal)
    (hle : dot (-pathSegment.ray.direction) normal ≤ 1)
    (hior : 0 < mat.indexOfRefraction) :
    ((u01 rng).1
        ≤ fresnel Real.sqrt (dot (-pathSegment.ray.direction) normal)
            (if outside then mat.indexOfRefraction else 1 / mat.indexOfRefraction) →
      (scatterRay Real.sqrt cos sin TWO_PI SQRT_OF_ONE_THIRD makeOffsetedRay pathSegment
          intersect normal outside mat rng).1.ray
        = makeOffsetedRay intersect (reflect pathSegment.ray.direction normal)) ∧
    (¬ (u01 rng).1
        ≤ fresnel Real.sqrt (dot (-pathSegment.ray.direction) normal)
            (if outside then mat.indexOfRefraction else 1 / mat.indexOfRefraction) →
      (scatterRay Real.sqrt cos sin TWO_PI SQRT_OF_ONE_THIRD makeOffsetedRay pathSegment
          intersect normal outside mat rng).1.ray
        = makeOffsetedRay intersect
            (normalize Real.sqrt (refract Real.sqrt pathSegment.ray.direction normal
              (if outside then mat.indexOfRefraction else 1 / mat.indexOfRefraction)))) ∧
    reflect pathSegment.ray.direction normal
      ≠ normalize Real.sqrt (refract Real.sqrt pathSegment.ray.direction normal
          (if outside then mat.indexOfRefraction else 1 / mat.indexOfRefraction)) ∧
    ((u01 rng).1 = 0 →
      (scatterRay Real.sqrt cos sin TWO_PI SQRT_OF_ONE_THIRD makeOffsetedRay pathSegment
          intersect normal outside mat rng).1.ray
        = makeOffsetedRay intersect (reflect pathSegment.ray.direction normal)) ∧
    ((u01 rng).1 = 1 →
      fresnel Real.sqrt (dot (-pathSegment.ray.direction) normal)
          (if outside then mat.indexOfRefraction else 1 / mat.indexOfRefraction) ≠ 1 →
      (scatterRay Real.sqrt cos sin TWO_PI SQRT_OF_ONE_THIRD makeOffsetedRay pathSegment
          intersect normal outside mat rng).1.ray
        = makeOffsetedRay intersect
            (normalize Real.sqrt (refract Real.sqrt pathSegment.ray.direction normal
              (if outside then mat.indexOfRefraction else 1 / mat.indexOfRefraction)))) := by
  have _ := hdir
  have _ := hle
  have hray := scatterRay_dielectric_ray Real.sqrt cos sin TWO_PI SQRT_OF_ONE_THIRD
    makeOffsetedRay pathSegment intersect normal outside mat rng hdielectric
  have hn := Vec3.dot_self_of_length normal hnormal
  have hF := fresnel_range (dot (-pathSegment.ray.direction) normal)
    (if outside then mat.indexOfRefraction else 1 / mat.indexOfRefraction) hpos
    (relIOR_pos outside mat.indexOfRefraction hior)
  refine ⟨?_, ?_, ?_, ?_, ?_⟩
  · intro h
    rw [hray, if_pos h]
  · intro h
    rw [hray, if_neg h]
  · intro heq
    have h1 := Vec3.dot_reflect_normal pathSegment.ray.direction normal hn
    have h2 := Vec3.dot_normalize_nonpos _ normal
      (Vec3.dot_refract_normal_nonpos pathSegment.ray.direction normal
        (if outside then mat.indexOfRefraction else 1 / mat.indexOfRefraction) hn)
    rw [← heq, h1] at h2
    linarith
  · intro h
    rw [hray, if_pos (by rw [h]; exact hF.1)]
  · intro h hne
    have hlt : ¬ (u01 rng).1
        ≤ fresnel Real.sqrt (dot (-pathSegment.ray.direction) normal)
            (if outside then mat.indexOfRefraction else 1 / mat.indexOfRefraction) := by
      rw [h]
      intro hge
      exact hne (le_antisymm hF.2 hge)
    rw [hray, if_neg hlt]

/-- C9. Total internal reflection forces reflection: for every Dielectric
material, outside flag and incident geometry whose selected relative index and
`cosTheta` satisfy `relIOR² (1 - cosTheta²) > 1`, `scatterRay` hands the reflected
direction `reflect(ray.direction, normal)` to the new ray for every drawn variate
`u` in `[0,1]`. -/
theorem scatterRay_dielectric_tir_reflects (cos sin : ℝ → ℝ)
    (TWO_PI SQRT_OF_ONE_THIRD : ℝ) (makeOffsetedRay : Vec3 ℝ → Vec3 ℝ → Ray ℝ)
    (pathSegment : PathSegment ℝ) (intersect normal : Vec3 ℝ) (outside : Bool)
    (mat : Material ℝ) (rng : RandomEngine ℝ)
    (hdielectric : mat.type = Material.Dielectric)
    (htir : (if outside then mat.indexOfRefraction else 1 / mat.indexOfRefraction) ^ 2
      * (1 - dot (-pathSegment.ray.direction) normal ^ 2) > 1)
    (hu0 : 0 ≤ (u01 rng).1) (hu1 : (u01 rng).1 ≤ 1) :
    (scatterRay Real.sqrt cos sin TWO_PI SQRT_OF_ONE_THIRD makeOffsetedRay pathSegment
        intersect normal outside mat rng).1.ray
      = makeOffsetedRay intersect (reflect pathSegment.ray.direction normal) := by
  have _ := hu0
  have hF := (fresnel_eq_one_of_sq_test _ _ htir)
  rw [scatterRay_dielectric_ray Real.sqrt cos sin TWO_PI SQRT_OF_ONE_THIRD
    makeOffsetedRay pathSegment intersect normal outside mat rng hdielectric, hF,
    if_pos hu1]

/-- Instance of C8: normal incidence from outside on glass of stored index 2
with the draw `u = 0`, which reflects. -/
theorem scatterRay_dielectric_branch_selection_witness :
    (⟨Material.Dielectric, ⟨1, 1, 1⟩, ⟨0, 0, 0⟩, 2⟩ : Material ℝ).type
        = Material.Dielectric ∧
    length Real.sqrt (⟨0, 0, 1⟩ : Vec3 ℝ) = 1 ∧
    length Real.sqrt (⟨0, 0, -1⟩ : Vec3 ℝ) = 1 ∧
    0 < dot (-(⟨0, 0, -1⟩ : Vec3 ℝ)) ⟨0, 0, 1⟩ ∧
    dot (-(⟨0, 0, -1⟩ : Vec3 ℝ)) ⟨0, 0, 1⟩ ≤ 1 ∧
    (0 : ℝ) < 2 ∧
    (scatterRay Real.sqrt Real.cos Real.sin (2 * Real.pi) (Real.sqrt (1 / 3))
        (fun o d => ⟨o, d⟩)
        ⟨⟨⟨0, 0, 1⟩, ⟨0, 0, -1⟩⟩, ⟨1, 1, 1⟩, ⟨0, 0, 0⟩, 8⟩
        ⟨0, 0, 0⟩ ⟨0, 0, 1⟩ true
        ⟨Material.Dielectric, ⟨1, 1, 1⟩, ⟨0, 0, 0⟩, 2⟩
        ⟨fun _ => 0, 0⟩).1.ray
      = ⟨⟨0, 0, 0⟩, reflect ⟨0, 0, -1⟩ ⟨0, 0, 1⟩⟩ :=
  ⟨rfl, by simp [length, dot], by simp [length, dot], by simp [dot], by simp [dot],
    by norm_num,
    (scatterRay_dielectric_branch_selection Real.cos Real.sin (2 * Real.pi)
      (Real.sqrt (1 / 3)) (fun o d => ⟨o, d⟩)
      ⟨⟨⟨0, 0, 1⟩, ⟨0, 0, -1⟩⟩, ⟨1, 1, 1⟩, ⟨0, 0, 0⟩, 8⟩
      ⟨0, 0, 0⟩ ⟨0, 0, 1⟩ true
      ⟨Material.Dielectric, ⟨1, 1, 1⟩, ⟨0, 0, 0⟩, 2⟩
      ⟨fun _ => 0, 0⟩ rfl (by simp [length, dot]) (by simp [length, dot])
      (by simp [dot]) (by simp [dot]) (by norm_num)).2.2.2.1 rfl⟩

/-- Instance of C9: a ray inside glass of stored index 1/2 (relative index 2)
meeting the surface with `cosTheta = 3/5`, where `relIOR² (1 - cosTheta²) = 64/25`,
and the draw `u = 1/2`. -/
theorem scatterRay_dielectric_tir_reflects_witness :
    (⟨Material.Dielectric, ⟨1, 1, 1⟩, ⟨0, 0, 0⟩, 1 / 2⟩ : Material ℝ).type
        = Material.Dielectric ∧
    (1 / (1 / 2 : ℝ)) ^ 2
        * (1 - dot (-(⟨4 / 5, 0, -(3 / 5)⟩ : Vec3 ℝ)) ⟨0, 0, 1⟩ ^ 2) > 1 ∧
    (0 : ℝ) ≤ 1 / 2 ∧ (1 / 2 : ℝ) ≤ 1 ∧
    (scatterRay Real.sqrt Real.cos Real.sin (2 * Real.pi) (Real.sqrt (1 / 3))
        (fun o d => ⟨o, d⟩)
        ⟨⟨⟨0, 0, 1⟩, ⟨4 / 5, 0, -(3 / 5)⟩⟩, ⟨1, 1, 1⟩, ⟨0, 0, 0⟩, 8⟩
        ⟨0, 0, 0⟩ ⟨0, 0, 1⟩ false
        ⟨Material.Dielectric, ⟨1, 1, 1⟩, ⟨0, 0, 0⟩, 1 / 2⟩
        ⟨fun _ => 1 / 2, 0⟩).1.ray
      = ⟨⟨0, 0, 0⟩, reflect ⟨4 / 5, 0, -(3 / 5)⟩ ⟨0, 0, 1⟩⟩ :=
  ⟨rfl, by norm_num [dot], by norm_num, by norm_num,
    scatterRay_dielectric_tir_reflects Real.cos Real.sin (2 * Real.pi)
      (Real.sqrt (1 / 3)) (fun o d => ⟨o, d⟩)
      ⟨⟨⟨0, 0, 1⟩, ⟨4 / 5, 0, -(3 / 5)⟩⟩, ⟨1, 1, 1⟩, ⟨0, 0, 0⟩, 8⟩
      ⟨0, 0, 0⟩ ⟨0, 0, 1⟩ false
      ⟨Material.Dielectric, ⟨1, 1, 1⟩, ⟨0, 0, 0⟩, 1 / 2⟩
      ⟨fun _ => 1 / 2, 0⟩ rfl (by norm_num [dot])
      (by norm_num [u01]) (by norm_num [u01])⟩

/-! ## Claims about the hemisphere sampler -/

/-- Lagrange's identity for the vector product. -/
theorem Vec3.dot_cross_self (a b : Vec3 ℝ) :
    dot (cross a b) (cross a b) = dot a a * dot b b - dot a b * dot a b := by
  simp only [dot, cross]
  ring

/-- The vector product is orthogonal to its first factor. -/
theorem Vec3.dot_cross_left (a b : Vec3 ℝ) : dot (cross a b) a = 0 := by
  simp only [dot, cross]
  ring

/-- The vector product is orthogonal to its second factor. -/
theorem Vec3.dot_cross_right (a b : Vec3 ℝ) : dot (cross a b) b = 0 := by
  simp only [dot, cross]
  ring

/-- Inner product of a rescaled vector with another one. -/
theorem Vec3.dot_normalize_left (v w : Vec3 ℝ) :
    dot (normalize Real.sqrt v) w = 1 / Real.sqrt (dot v v) * dot v w := by
  simp only [normalize, dot, Vec3.smul_x, Vec3.smul_y, Vec3.smul_z]
  ring

/-- Rescaling a vector that is not zero gives a vector of inner square one. -/
theorem Vec3.dot_normalize_self (v : Vec3 ℝ) (h : 0 < dot v v) :
    dot (normalize Real.sqrt v) (normalize Real.sqrt v) = 1 := by
  have hs : Real.sqrt (dot v v) * Real.sqrt (dot v v) = dot v v :=
    Real.mul_self_sqrt h.le
  have hne : Real.sqrt (dot v v) ≠ 0 := (Real.sqrt_pos.mpr h).ne'
  have e : dot (normalize Real.sqrt v) (normalize Real.sqrt v)
      = dot v v / (Real.sqrt (dot v v) * Real.sqrt (dot v v)) := by
    simp only [normalize, dot, Vec3.smul_x, Vec3.smul_y, Vec3.smul_z]
    field_simp
  rw [e, hs, div_self h.ne']

/-- The inner product is symmetric. -/
theorem Vec3.dot_comm (a b : Vec3 ℝ) : dot a b = dot b a := by
  simp only [dot]
  ring

/-- A vector of inner square one has length one. -/
theorem Vec3.length_of_dot_self (v : Vec3 ℝ) (h : dot v v = 1) :
    length Real.sqrt v = 1 := by
  unfold length
  rw [h, Real.sqrt_one]

/-- The axis chosen by the sampler is a unit vector and is not parallel to a
unit normal, whatever threshold in `(0,1]` the constant `SQRT_OF_ONE_THIRD` is. -/
theorem directionNotNormal_spec (S : ℝ) (hS0 : 0 < S) (hS1 : S ≤ 1) (normal : Vec3 ℝ)
    (hn : dot normal normal = 1) :
    dot (directionNotNormal S normal) (directionNotNormal S normal) = 1 ∧
    dot normal (directionNotNormal S normal)
        * dot normal (directionNotNormal S normal) < 1 := by
  have hSS : 0 < S * S := mul_pos hS0 hS0
  have hS2 : S * S ≤ 1 := by nlinarith
  simp only [dot] at hn
  unfold directionNotNormal
  by_cases hx : |normal.x| < S
  · rw [if_pos hx]
    have h := mul_self_lt_mul_self (abs_nonneg normal.x) hx
    rw [abs_mul_abs_self] at h
    simp only [dot]
    constructor
    · norm_num
    · nlinarith
  · rw [if_neg hx]
    have hx2 := mul_self_le_mul_self hS0.le (not_lt.mp hx)
    rw [abs_mul_abs_self] at hx2
    by_cases hy : |normal.y| < S
    · rw [if_pos hy]
      have h := mul_self_lt_mul_self (abs_nonneg normal.y) hy
      rw [abs_mul_abs_self] at h
      simp only [dot]
      constructor
      · norm_num
      · nlinarith
    · rw [if_neg hy]
      simp only [dot]
      constructor
      · norm_num
      · nlinarith [mul_self_nonneg normal.y]

/-- The first tangent is well defined: the vector it rescales is not zero. -/
theorem cross_directionNotNormal_pos (S : ℝ) (hS0 : 0 < S) (hS1 : S ≤ 1)
    (normal : Vec3 ℝ) (hn : dot normal normal = 1) :
    0 < dot (cross normal (directionNotNormal S normal))
      (cross normal (directionNotNormal S normal)) := by
  have h := directionNotNormal_spec S hS0 hS1 normal hn
  rw [Vec3.dot_cross_self, hn, h.1]
  linarith [h.2]

/-- The first tangent is a unit vector orthogonal to the normal. -/
theorem perpendicularDirection1_spec (S : ℝ) (hS0 : 0 < S) (hS1 : S ≤ 1)
    (normal : Vec3 ℝ) (hn : dot normal normal = 1) :
    dot (perpendicularDirection1 Real.sqrt S normal)
        (perpendicularDirection1 Real.sqrt S normal) = 1 ∧
    dot (perpendicularDirection1 Real.sqrt S normal) normal = 0 := by
  unfold perpendicularDirection1
  constructor
  · exact Vec3.dot_normalize_self _ (cross_directionNotNormal_pos S hS0 hS1 normal hn)
  · rw [Vec3.dot_normalize_left, Vec3.dot_cross_left, mul_zero]

/-- The vector the second tangent rescales has inner square one. -/
theorem cross_perpendicularDirection1 (S : ℝ) (hS0 : 0 < S) (hS1 : S ≤ 1)
    (normal : Vec3 ℝ) (hn : dot normal normal = 1) :
    dot (cross normal (perpendicularDirection1 Real.sqrt S normal))
      (cross normal (perpendicularDirection1 Real.sqrt S normal)) = 1 := by
  have h := perpendicularDirection1_spec S hS0 hS1 normal hn
  rw [Vec3.dot_cross_self, hn, h.1, Vec3.dot_comm normal, h.2]
  norm_num

/-- The second tangent is a unit vector orthogonal to the normal and to the
first tangent. -/
theorem perpendicularDirection2_spec (S : ℝ) (hS0 : 0 < S) (hS1 : S ≤ 1)
    (normal : Vec3 ℝ) (hn : dot normal normal = 1) :
    dot (perpendicularDirection2 Real.sqrt S normal)
        (perpendicularDirection2 Real.sqrt S normal) = 1 ∧
    dot (perpendicularDirection2 Real.sqrt S normal) normal = 0 ∧
    dot (perpendicularDirection2 Real.sqrt S normal)
        (perpendicularDirection1 Real.sqrt S normal) = 0 := by
  have h := cross_perpendicularDirection1 S hS0 hS1 normal hn
  unfold perpendicularDirection2
  refine ⟨?_, ?_, ?_⟩
  · exact Vec3.dot_normalize_self _ (by rw [h]; exact one_pos)
  · rw [Vec3.dot_normalize_left, Vec3.dot_cross_left, mul_zero]
  · rw [Vec3.dot_normalize_left, Vec3.dot_cross_right, mul_zero]

/-- The exact value the name `SQRT_OF_ONE_THIRD` stands for lies in `(0,1]`. -/
theorem sqrt_one_third_range : 0 < Real.sqrt (1 / 3) ∧ Real.sqrt (1 / 3) ≤ 1 := by
  constructor
  · exact Real.sqrt_pos.mpr (by norm_num)
  · calc Real.sqrt (1 / 3) ≤ Real.sqrt 1 := Real.sqrt_le_sqrt (by norm_num)
      _ = 1 := Real.sqrt_one

/-- Inner square of a combination of three orthonormal vectors. -/
theorem Vec3.dot_combination (n p q : Vec3 ℝ) (a b c : ℝ)
    (hnn : dot n n = 1) (hpp : dot p p = 1) (hqq : dot q q = 1)
    (hpn : dot p n = 0) (hqn : dot q n = 0) (hqp : dot q p = 0) :
    dot (a • n + b • p + c • q) (a • n + b • p + c • q) = a * a + b * b + c * c := by
  simp only [dot] at hnn hpp hqq hpn hqn hqp
  simp only [dot, Vec3.add_x, Vec3.add_y, Vec3.add_z, Vec3.smul_x, Vec3.smul_y,
    Vec3.smul_z]
  linear_combination (a * a) * hnn + (b * b) * hpp + (c * c) * hqq
    + (2 * a * b) * hpn + (2 * a * c) * hqn + (2 * b * c) * hqp

/-- C10. Hemisphere sample has unit length: for every normal of length one and
every pair of draws `u1`, `u2` in `[0,1)`, the direction returned by
`calculateRandomDirectionInHemisphere` has Euclidean length exactly 1 over the
reals; the two vectors that are rescaled into the perpendicular directions are
not zero, and the perpendicular directions have length one, are orthogonal to
each other and orthogonal to the normal.  This holds for every value in `(0,1]`
of the constant `SQRT_OF_ONE_THIRD` and every value of `TWO_PI`. -/
theorem calculateRandomDirectionInHemisphere_unit_length
    (TWO_PI SQRT_OF_ONE_THIRD : ℝ) (normal : Vec3 ℝ) (rng : RandomEngine ℝ)
    (hS0 : 0 < SQRT_OF_ONE_THIRD) (hS1 : SQRT_OF_ONE_THIRD ≤ 1)
    (hnormal : length Real.sqrt normal = 1)
    (hu1 : 0 ≤ (u01 rng).1 ∧ (u01 rng).1 < 1)
    (hu2 : 0 ≤ (u01 (u01 rng).2).1 ∧ (u01 (u01 rng).2).1 < 1) :
    length Real.sqrt
        (calculateRandomDirectionInHemisphere Real.sqrt Real.cos Real.sin TWO_PI
          SQRT_OF_ONE_THIRD normal rng).1 = 1 ∧
    length Real.sqrt (cross normal (directionNotNormal SQRT_OF_ONE_THIRD normal)) ≠ 0 ∧
    length Real.sqrt
        (cross normal (perpendicularDirection1 Real.sqrt SQRT_OF_ONE_THIRD normal)) ≠ 0 ∧
    length Real.sqrt (perpendicularDirection1 Real.sqrt SQRT_OF_ONE_THIRD normal) = 1 ∧
    length Real.sqrt (perpendicularDirection2 Real.sqrt SQRT_OF_ONE_THIRD normal) = 1 ∧
    dot (perpendicularDirection1 Real.sqrt SQRT_OF_ONE_THIRD normal)
        (perpendicularDirection2 Real.sqrt SQRT_OF_ONE_THIRD normal) = 0 ∧
    dot (perpendicularDirection1 Real.sqrt SQRT_OF_ONE_THIRD normal) normal = 0 ∧
    dot (perpendicularDirection2 Real.sqrt SQRT_OF_ONE_THIRD normal) normal = 0 := by
  have _ := hu2
  have hn := Vec3.dot_self_of_length normal hnormal
  have h1 := perpendicularDirection1_spec SQRT_OF_ONE_THIRD hS0 hS1 normal hn
  have h2 := perpendicularDirection2_spec SQRT_OF_ONE_THIRD hS0 hS1 normal hn
  have hc1 := cross_directionNotNormal_pos SQRT_OF_ONE_THIRD hS0 hS1 normal hn
  have hc2 := cross_perpendicularDirection1 SQRT_OF_ONE_THIRD hS0 hS1 normal hn
  refine ⟨?_, ?_, ?_, Vec3.length_of_dot_self _ h1.1, Vec3.length_of_dot_self _ h2.1,
    ?_, h1.2, h2.2.1⟩
  · apply Vec3.length_of_dot_self
    unfold calculateRandomDirectionInHemisphere
    simp only []
    rw [Vec3.dot_combination _ _ _ _ _ _ hn h1.1 h2.1 h1.2 h2.2.1 h2.2.2]
    have hup : Real.sqrt (u01 rng).1 * Real.sqrt (u01 rng).1 = (u01 rng).1 :=
      Real.mul_self_sqrt hu1.1
    have hover : Real.sqrt (1 - Real.sqrt (u01 rng).1 * Real.sqrt (u01 rng).1)
        * Real.sqrt (1 - Real.sqrt (u01 rng).1 * Real.sqrt (u01 rng).1)
        = 1 - (u01 rng).1 := by
      rw [hup]
      exact Real.mul_self_sqrt (by linarith [hu1.2])
    have htrig := Real.cos_sq_add_sin_sq ((u01 (u01 rng).2).1 * TWO_PI)
    generalize Real.cos ((u01 (u01 rng).2).1 * TWO_PI) = c at htrig ⊢
    generalize Real.sin ((u01 (u01 rng).2).1 * TWO_PI) = s at htrig ⊢
    generalize Real.sqrt (1 - Real.sqrt (u01 rng).1 * Real.sqrt (u01 rng).1) = o
      at hover ⊢
    linear_combination hup + (c ^ 2 + s ^ 2) * hover + (1 - (u01 rng).1) * htrig
  · unfold length
    exact (Real.sqrt_pos.mpr hc1).ne'
  · unfold length
    rw [hc2, Real.sqrt_one]
    exact one_ne_zero
  · rw [Vec3.dot_comm]
    exact h2.2.2

/-- Instance of C10: the normal `(0,0,1)`, the exact constants `2π` and `√(1/3)`,
and the draws `u1 = u2 = 1/2`. -/
theorem calculateRandomDirectionInHemisphere_unit_length_witness :
    0 < Real.sqrt (1 / 3) ∧ Real.sqrt (1 / 3) ≤ 1 ∧
    length Real.sqrt (⟨0, 0, 1⟩ : Vec3 ℝ) = 1 ∧
    ((0 : ℝ) ≤ 1 / 2 ∧ (1 / 2 : ℝ) < 1) ∧
    ((0 : ℝ) ≤ 1 / 2 ∧ (1 / 2 : ℝ) < 1) ∧
    length Real.sqrt
        (calculateRandomDirectionInHemisphere Real.sqrt Real.cos Real.sin (2 * Real.pi)
          (Real.sqrt (1 / 3)) ⟨0, 0, 1⟩ ⟨fun _ => 1 / 2, 0⟩).1 = 1 :=
  ⟨sqrt_one_third_range.1, sqrt_one_third_range.2, by simp [length, dot],
    by norm_num, by norm_num,
    (calculateRandomDirectionInHemisphere_unit_length (2 * Real.pi) (Real.sqrt (1 / 3))
      ⟨0, 0, 1⟩ ⟨fun _ => 1 / 2, 0⟩ sqrt_one_third_range.1 sqrt_one_third_range.2
      (by simp [length, dot]) (by norm_num [u01]) (by norm_num [u01])).1⟩

/-- Inner product of a combination of three orthonormal vectors with the first
of them. -/
theorem Vec3.dot_combination_first (n p q : Vec3 ℝ) (a b c : ℝ)
    (hnn : dot n n = 1) (hpn : dot p n = 0) (hqn : dot q n = 0) :
    dot (a • n + b • p + c • q) n = a := by
  simp only [dot] at hnn hpn hqn
  simp only [dot, Vec3.add_x, Vec3.add_y, Vec3.add_z, Vec3.smul_x, Vec3.smul_y,
    Vec3.smul_z]
  linear_combination a * hnn + b * hpn + c * hqn

/-- The sampled direction makes the angle of cosine `sqrt u1` with a unit
normal. -/
theorem calculateRandomDirectionInHemisphere_dot (TWO_PI S : ℝ) (hS0 : 0 < S)
    (hS1 : S ≤ 1) (normal : Vec3 ℝ) (rng : RandomEngine ℝ) (hn : dot normal normal = 1) :
    dot (calculateRandomDirectionInHemisphere Real.sqrt Real.cos Real.sin TWO_PI S
        normal rng).1 normal = Real.sqrt (u01 rng).1 := by
  have h1 := perpendicularDirection1_spec S hS0 hS1 normal hn
  have h2 := perpendicularDirection2_spec S hS0 hS1 normal hn
  unfold calculateRandomDirectionInHemisphere
  simp only []
  exact Vec3.dot_combination_first _ _ _ _ _ _ hn h1.2 h2.2.1

/-- C11. Hemisphere constraint and cosine weighting: for every normal of length
one and every pair of draws `u1`, `u2` in `[0,1)`, the inner product of the
direction returned by `calculateRandomDirectionInHemisphere` with the normal is
`sqrt u1`; hence it is never negative, and for every `c` in `[0,1]` the cosine of
the polar angle is at most `c` exactly when `u1 ≤ c²`, whatever `u2` is.  This
holds for every value in `(0,1]` of `SQRT_OF_ONE_THIRD` and every `TWO_PI`. -/
theorem calculateRandomDirectionInHemisphere_cosine
    (TWO_PI SQRT_OF_ONE_THIRD : ℝ) (normal : Vec3 ℝ) (rng : RandomEngine ℝ)
    (hS0 : 0 < SQRT_OF_ONE_THIRD) (hS1 : SQRT_OF_ONE_THIRD ≤ 1)
    (hnormal : length Real.sqrt normal = 1)
    (hu1 : 0 ≤ (u01 rng).1 ∧ (u01 rng).1 < 1)
    (hu2 : 0 ≤ (u01 (u01 rng).2).1 ∧ (u01 (u01 rng).2).1 < 1) :
    dot (calculateRandomDirectionInHemisphere Real.sqrt Real.cos Real.sin TWO_PI
        SQRT_OF_ONE_THIRD normal rng).1 normal = Real.sqrt (u01 rng).1 ∧
    0 ≤ dot (calculateRandomDirectionInHemisphere Real.sqrt Real.cos Real.sin TWO_PI
        SQRT_OF_ONE_THIRD normal rng).1 normal ∧
    ∀ c : ℝ, 0 ≤ c → c ≤ 1 →
      (dot (calculateRandomDirectionInHemisphere Real.sqrt Real.cos Real.sin TWO_PI
          SQRT_OF_ONE_THIRD normal rng).1 normal ≤ c ↔ (u01 rng).1 ≤ c ^ 2) := by
  have _ := hu1
  have _ := hu2
  have hn := Vec3.dot_self_of_length normal hnormal
  have hd := calculateRandomDirectionInHemisphere_dot TWO_PI SQRT_OF_ONE_THIRD hS0 hS1
    normal rng hn
  refine ⟨hd, ?_, ?_⟩
  · rw [hd]
    exact Real.sqrt_nonneg _
  · intro c hc0 _
    rw [hd]
    exact Real.sqrt_le_left hc0

/-- Instance of C11: the normal `(0,0,1)`, the exact constants `2π` and `√(1/3)`,
and the draws `u1 = 1/4`, `u2 = 1/2`: the cosine is `sqrt (1/4)`. -/
theorem calculateRandomDirectionInHemisphere_cosine_witness :
    0 < Real.sqrt (1 / 3) ∧ Real.sqrt (1 / 3) ≤ 1 ∧
    length Real.sqrt (⟨0, 0, 1⟩ : Vec3 ℝ) = 1 ∧
    ((0 : ℝ) ≤ 1 / 4 ∧ (1 / 4 : ℝ) < 1) ∧
    ((0 : ℝ) ≤ 1 / 2 ∧ (1 / 2 : ℝ) < 1) ∧
    dot (calculateRandomDirectionInHemisphere Real.sqrt Real.cos Real.sin (2 * Real.pi)
        (Real.sqrt (1 / 3)) ⟨0, 0, 1⟩
        ⟨fun i => if i = 0 then 1 / 4 else 1 / 2, 0⟩).1 ⟨0, 0, 1⟩
      = Real.sqrt (1 / 4) :=
  ⟨sqrt_one_third_range.1, sqrt_one_third_range.2, by simp [length, dot],
    by norm_num, by norm_num,
    (calculateRandomDirectionInHemisphere_cosine (2 * Real.pi) (Real.sqrt (1 / 3))
      ⟨0, 0, 1⟩ ⟨fun i => if i = 0 then 1 / 4 else 1 / 2, 0⟩
      sqrt_one_third_range.1 sqrt_one_third_range.2
      (by simp [length, dot]) (by norm_num [u01]) (by norm_num [u01])).1⟩

/-- C13. Random-source consumption of the sampler: for every normal,
`calculateRandomDirectionInHemisphere` advances the random source it is given by
exactly two draws and leaves its sequence alone; the first draw sets the polar
angle (`up = sqrt u1`), the second the azimuth (`around = u2 * TWO_PI`), and the
returned direction is a function of these two values: any other random source
producing the same two values gives the same direction. -/
theorem calculateRandomDirectionInHemisphere_draws (sqrt cos sin : ℝ → ℝ)
    (TWO_PI SQRT_OF_ONE_THIRD : ℝ) (normal : Vec3 ℝ) (rng : RandomEngine ℝ) :
    (calculateRandomDirectionInHemisphere sqrt cos sin TWO_PI SQRT_OF_ONE_THIRD
        normal rng).2.drawn = rng.drawn + 2 ∧
    (calculateRandomDirectionInHemisphere sqrt cos sin TWO_PI SQRT_OF_ONE_THIRD
        normal rng).2.stream = rng.stream ∧
    (calculateRandomDirectionInHemisphere sqrt cos sin TWO_PI SQRT_OF_ONE_THIRD
        normal rng).1
      = sqrt (rng.stream rng.drawn) • normal
        + (cos (rng.stream (rng.drawn + 1) * TWO_PI)
            * sqrt (1 - sqrt (rng.stream rng.drawn) * sqrt (rng.stream rng.drawn)))
          • perpendicularDirection1 sqrt SQRT_OF_ONE_THIRD normal
        + (sin (rng.stream (rng.drawn + 1) * TWO_PI)
            * sqrt (1 - sqrt (rng.stream rng.drawn) * sqrt (rng.stream rng.drawn)))
          • perpendicularDirection2 sqrt SQRT_OF_ONE_THIRD normal ∧
    ∀ other : RandomEngine ℝ,
      other.stream other.drawn = rng.stream rng.drawn →
      other.stream (other.drawn + 1) = rng.stream (rng.drawn + 1) →
      (calculateRandomDirectionInHemisphere sqrt cos sin TWO_PI SQRT_OF_ONE_THIRD
          normal other).1
        = (calculateRandomDirectionInHemisphere sqrt cos sin TWO_PI SQRT_OF_ONE_THIRD
          normal rng).1 := by
  refine ⟨rfl, rfl, rfl, ?_⟩
  intro other h1 h2
  simp only [calculateRandomDirectionInHemisphere, u01, h1, h2]

/-- Instance of C13: two random sources that agree on their next two values and
differ afterwards give the same direction. -/
theorem calculateRandomDirectionInHemisphere_draws_witness :
    (calculateRandomDirectionInHemisphere Real.sqrt Real.cos Real.sin (2 * Real.pi)
        (Real.sqrt (1 / 3)) ⟨0, 0, 1⟩ ⟨fun i => if i < 5 then 1 / 2 else 0, 3⟩).1
      = (calculateRandomDirectionInHemisphere Real.sqrt Real.cos Real.sin (2 * Real.pi)
        (Real.sqrt (1 / 3)) ⟨0, 0, 1⟩ ⟨fun _ => 1 / 2, 0⟩).1 :=
  (calculateRandomDirectionInHemisphere_draws Real.sqrt Real.cos Real.sin (2 * Real.pi)
    (Real.sqrt (1 / 3)) ⟨0, 0, 1⟩ ⟨fun _ => 1 / 2, 0⟩).2.2.2
    ⟨fun i => if i < 5 then 1 / 2 else 0, 3⟩ (by norm_num) (by norm_num)

/-! ## Claims about refraction -/

/-- When the radicand of the transmitted cosine is not positive the reflectance
is one. -/
theorem fresnel_eq_one_of_radicand_nonpos (c r : ℝ) (hc : 0 < c)
    (hk : 1 - r * r * (1 - c * c) ≤ 0) : fresnel Real.sqrt c r = 1 := by
  by_cases hs : r * r * (1 - c * c) > 1
  · exact fresnel_of_tir c r hs
  · have hs1 : r * r * (1 - c * c) = 1 := le_antisymm (not_lt.mp hs) (by linarith)
    have hr1 : r ≠ 1 := by
      rintro rfl
      nlinarith [mul_pos hc hc]
    have hr0 : r ≠ 0 := by
      rintro rfl
      norm_num at hs1
    have hrc : r * c ≠ 0 := mul_ne_zero hr0 hc.ne'
    unfold fresnel
    rw [if_neg hr1]
    simp only [if_neg hs, hs1, sub_self, Real.sqrt_zero, mul_zero, sub_zero, add_zero]
    rw [div_self hrc, div_self hc.ne']
    norm_num

/-- In the refraction branch the radicand of the transmitted cosine is strictly
positive. -/
theorem radicand_pos_of_refraction (c r u : ℝ) (hc : 0 < c) (hu : u ≤ 1)
    (h : ¬ u ≤ fresnel Real.sqrt c r) : 0 < 1 - r * r * (1 - c * c) := by
  by_contra hk
  exact h (by rw [fresnel_eq_one_of_radicand_nonpos c r hc (not_lt.mp hk)]; exact hu)

/-- The vector `glm::refract` returns when its radicand is not negative, written
with the cosine `-d·n` of the angle of incidence. -/
theorem Vec3.refract_eq (d n : Vec3 ℝ) (eta : ℝ)
    (hk : 0 ≤ 1 - eta * eta * (1 - dot (-d) n * dot (-d) n)) :
    refract Real.sqrt d n eta
      = eta • d + (eta * dot (-d) n
          - Real.sqrt (1 - eta * eta * (1 - dot (-d) n * dot (-d) n))) • n := by
  have e : dot n d = -dot (-d) n := by
    simp only [dot, Vec3.neg_x, Vec3.neg_y, Vec3.neg_z]
    ring
  unfold refract
  simp only [e, neg_mul_neg]
  rw [if_pos hk]
  ext <;> simp <;> ring

/-- Inner square of the refracted vector for unit `d` and `n`. -/
theorem Vec3.dot_refracted_self (d n : Vec3 ℝ) (eta c w : ℝ)
    (hn : dot n n = 1) (hd : dot d d = 1) (hc : dot d n = -c)
    (hw : w * w = 1 - eta * eta * (1 - c * c)) :
    dot (eta • d + (eta * c - w) • n) (eta • d + (eta * c - w) • n) = 1 := by
  simp only [dot] at hn hd hc
  simp only [dot, Vec3.add_x, Vec3.add_y, Vec3.add_z, Vec3.smul_x, Vec3.smul_y,
    Vec3.smul_z]
  linear_combination (eta * c - w) ^ 2 * hn + eta ^ 2 * hd
    + (2 * eta * (eta * c - w)) * hc + hw

/-- Inner product of the refracted vector with a unit normal. -/
theorem Vec3.dot_refracted_normal (d n : Vec3 ℝ) (eta c w : ℝ)
    (hn : dot n n = 1) (hc : dot d n = -c) :
    dot (eta • d + (eta * c - w) • n) n = -w := by
  simp only [dot] at hn hc
  simp only [dot, Vec3.add_x, Vec3.add_y, Vec3.add_z, Vec3.smul_x, Vec3.smul_y,
    Vec3.smul_z]
  linear_combination (eta * c - w) * hn + eta * hc

/-- Rescaling a vector of inner square one gives it back. -/
theorem Vec3.normalize_of_dot_self (v : Vec3 ℝ) (h : dot v v = 1) :
    normalize Real.sqrt v = v := by
  unfold normalize
  rw [h, Real.sqrt_one]
  ext <;> simp

/-- Inner product with the negated vector. -/
theorem Vec3.dot_neg_left (d n : Vec3 ℝ) : dot (-d) n = -dot d n := by
  simp only [dot, Vec3.neg_x, Vec3.neg_y, Vec3.neg_z]
  ring

/-- C12. Refraction direction: in the Dielectric refraction branch, for a ray
direction `d` and a normal `n` of length one with `cosTheta = -d·n` in `(0,1]`,
the selected relative index `eta` and a drawn variate in `[0,1)`, the direction
handed to the new ray is `eta d + (eta cosTheta - sqrt(1 - eta² (1 - cosTheta²))) n`;
this vector has length one, so normalising it changes nothing; its component
perpendicular to `n` is `eta` times that of `d` (Snell's law); and its inner
product with `n` is negative. -/
theorem scatterRay_dielectric_refraction_direction (cos sin : ℝ → ℝ)
    (TWO_PI SQRT_OF_ONE_THIRD : ℝ) (makeOffsetedRay : Vec3 ℝ → Vec3 ℝ → Ray ℝ)
    (pathSegment : PathSegment ℝ) (intersect normal : Vec3 ℝ) (outside : Bool)
    (mat : Material ℝ) (rng : RandomEngine ℝ) (eta cosTheta : ℝ)
    (hdielectric : mat.type = Material.Dielectric)
    (hnormal : length Real.sqrt normal = 1)
    (hdir : length Real.sqrt pathSegment.ray.direction = 1)
    (hcos : cosTheta = dot (-pathSegment.ray.direction) normal)
    (heta : eta = if outside then mat.indexOfRefraction else 1 / mat.indexOfRefraction)
    (hpos : 0 < cosTheta) (hle : cosTheta ≤ 1)
    (hu : 0 ≤ (u01 rng).1 ∧ (u01 rng).1 < 1)
    (hrefract : ¬ (u01 rng).1 ≤ fresnel Real.sqrt cosTheta eta) :
    (scatterRay Real.sqrt cos sin TWO_PI SQRT_OF_ONE_THIRD makeOffsetedRay pathSegment
        intersect normal outside mat rng).1.ray
      = makeOffsetedRay intersect
          (eta • pathSegment.ray.direction
            + (eta * cosTheta - Real.sqrt (1 - eta ^ 2 * (1 - cosTheta ^ 2))) • normal) ∧
    length Real.sqrt
        (eta • pathSegment.ray.direction
          + (eta * cosTheta - Real.sqrt (1 - eta ^ 2 * (1 - cosTheta ^ 2))) • normal) = 1 ∧
    normalize Real.sqrt
        (eta • pathSegment.ray.direction
          + (eta * cosTheta - Real.sqrt (1 - eta ^ 2 * (1 - cosTheta ^ 2))) • normal)
      = eta • pathSegment.ray.direction
          + (eta * cosTheta - Real.sqrt (1 - eta ^ 2 * (1 - cosTheta ^ 2))) • normal ∧
    (eta • pathSegment.ray.direction
          + (eta * cosTheta - Real.sqrt (1 - eta ^ 2 * (1 - cosTheta ^ 2))) • normal)
        - dot (eta • pathSegment.ray.direction
            + (eta * cosTheta - Real.sqrt (1 - eta ^ 2 * (1 - cosTheta ^ 2))) • normal)
          normal • normal
      = eta • (pathSegment.ray.direction
          - dot pathSegment.ray.direction normal • normal) ∧
    dot (eta • pathSegment.ray.direction
          + (eta * cosTheta - Real.sqrt (1 - eta ^ 2 * (1 - cosTheta ^ 2))) • normal)
        normal < 0 := by
  have _ := hle
  have hn := Vec3.dot_self_of_length normal hnormal
  have hd := Vec3.dot_self_of_length pathSegment.ray.direction hdir
  have hk := radicand_pos_of_refraction cosTheta eta (u01 rng).1 hpos hu.2.le hrefract
  have e : 1 - eta ^ 2 * (1 - cosTheta ^ 2) = 1 - eta * eta * (1 - cosTheta * cosTheta) := by
    ring
  have hc : dot pathSegment.ray.direction normal = -cosTheta := by
    rw [hcos, Vec3.dot_neg_left, neg_neg]
  have hw := Real.mul_self_sqrt hk.le
  have hself := Vec3.dot_refracted_self pathSegment.ray.direction normal eta cosTheta
    (Real.sqrt (1 - eta * eta * (1 - cosTheta * cosTheta))) hn hd hc hw
  have hdotn := Vec3.dot_refracted_normal pathSegment.ray.direction normal eta cosTheta
    (Real.sqrt (1 - eta * eta * (1 - cosTheta * cosTheta))) hn hc
  have hnorm := Vec3.normalize_of_dot_self _ hself
  rw [e]
  refine ⟨?_, Vec3.length_of_dot_self _ hself, hnorm, ?_, ?_⟩
  · have hray := scatterRay_dielectric_ray Real.sqrt cos sin TWO_PI SQRT_OF_ONE_THIRD
      makeOffsetedRay pathSegment intersect normal outside mat rng hdielectric
    rw [← heta, ← hcos, if_neg hrefract] at hray
    have hk' : 0 ≤ 1 - eta * eta * (1 - dot (-pathSegment.ray.direction) normal
        * dot (-pathSegment.ray.direction) normal) := by
      rw [← hcos]; exact hk.le
    rw [hray, Vec3.refract_eq pathSegment.ray.direction normal eta hk', ← hcos, hnorm]
  · rw [hdotn]
    ext <;> simp [hc] <;> ring
  · rw [hdotn]
    linarith [Real.sqrt_pos.mpr hk]

/-- Instance of C12: normal incidence from outside on glass of stored index 2,
where the reflectance is 1/9, with the draw `u = 1/2`: the ray goes straight
through. -/
theorem scatterRay_dielectric_refraction_direction_witness :
    (⟨Material.Dielectric, ⟨1, 1, 1⟩, ⟨0, 0, 0⟩, 2⟩ : Material ℝ).type
        = Material.Dielectric ∧
    length Real.sqrt (⟨0, 0, 1⟩ : Vec3 ℝ) = 1 ∧
    length Real.sqrt (⟨0, 0, -1⟩ : Vec3 ℝ) = 1 ∧
    (1 : ℝ) = dot (-(⟨0, 0, -1⟩ : Vec3 ℝ)) ⟨0, 0, 1⟩ ∧
    (0 : ℝ) < 1 ∧ (1 : ℝ) ≤ 1 ∧
    ((0 : ℝ) ≤ 1 / 2 ∧ (1 / 2 : ℝ) < 1) ∧
    ¬ (1 / 2 : ℝ) ≤ fresnel Real.sqrt 1 2 ∧
    (scatterRay Real.sqrt Real.cos Real.sin (2 * Real.pi) (Real.sqrt (1 / 3))
        (fun o d => ⟨o, d⟩)
        ⟨⟨⟨0, 0, 1⟩, ⟨0, 0, -1⟩⟩, ⟨1, 1, 1⟩, ⟨0, 0, 0⟩, 8⟩
        ⟨0, 0, 0⟩ ⟨0, 0, 1⟩ true
        ⟨Material.Dielectric, ⟨1, 1, 1⟩, ⟨0, 0, 0⟩, 2⟩
        ⟨fun _ => 1 / 2, 0⟩).1.ray
      = ⟨⟨0, 0, 0⟩, (2 : ℝ) • (⟨0, 0, -1⟩ : Vec3 ℝ)
          + (2 * 1 - Real.sqrt (1 - 2 ^ 2 * (1 - 1 ^ 2))) • (⟨0, 0, 1⟩ : Vec3 ℝ)⟩ :=
  ⟨rfl, by simp [length, dot], by simp [length, dot], by simp [dot], one_pos, le_refl 1,
    by norm_num, by norm_num [fresnel],
    (scatterRay_dielectric_refraction_direction Real.cos Real.sin (2 * Real.pi)
      (Real.sqrt (1 / 3)) (fun o d => ⟨o, d⟩)
      ⟨⟨⟨0, 0, 1⟩, ⟨0, 0, -1⟩⟩, ⟨1, 1, 1⟩, ⟨0, 0, 0⟩, 8⟩
      ⟨0, 0, 0⟩ ⟨0, 0, 1⟩ true
      ⟨Material.Dielectric, ⟨1, 1, 1⟩, ⟨0, 0, 0⟩, 2⟩
      ⟨fun _ => 1 / 2, 0⟩ 2 1 rfl (by simp [length, dot]) (by simp [length, dot])
      (by simp [dot]) rfl one_pos (le_refl 1) (by norm_num [u01])
      (by norm_num [fresnel, u01])).1⟩

/-- The value of `fresnel` does not depend on what the square root function does
on negative numbers: it is never applied to one. -/
theorem fresnel_sqrt_congr (sqrt1 sqrt2 : ℝ → ℝ)
    (h : ∀ x : ℝ, 0 ≤ x → sqrt1 x = sqrt2 x) (c r : ℝ) :
    fresnel sqrt1 c r = fresnel sqrt2 c r := by
  unfold fresnel
  by_cases h1 : r = 1
  · rw [if_pos h1, if_pos h1]
  · rw [if_neg h1, if_neg h1]
    by_cases h2 : r * r * (1 - c * c) > 1
    · simp only [if_pos h2]
    · simp only [if_neg h2]
      rw [h (1 - r * r * (1 - c * c)) (by linarith [not_lt.mp h2])]

/-- C15. No square root of a negative quantity: for every `cosTheta` in `(0,1]`,
every relative index `> 0` and every drawn variate `u` in `[0,1)`, (i) when
`fresnel` reaches its square root, that is when neither early return fires, the
radicand `1 - RelIOR² (1 - cosThetaI²)` is `≥ 0`, and the result of `fresnel` is
the same for every square root function that agrees with the real one on
non-negative numbers; (ii) when Dielectric `scatterRay`, met at unit vectors with
this cosine, index and draw, takes the refraction branch, the radicand
`1 - relIOR² (1 - cosTheta²)` is strictly positive, the refracted vector is not
the zero vector and the length its normalisation divides by is not zero. -/
theorem scatterRay_no_sqrt_of_negative (cosTheta relIOR u : ℝ)
    (hpos : 0 < cosTheta) (hle : cosTheta ≤ 1) (hior : 0 < relIOR)
    (hu : 0 ≤ u ∧ u < 1) :
    (relIOR ≠ 1 → ¬ relIOR * relIOR * (1 - cosTheta * cosTheta) > 1 →
      0 ≤ 1 - relIOR * relIOR * (1 - cosTheta * cosTheta)) ∧
    (∀ sqrtOther : ℝ → ℝ, (∀ x : ℝ, 0 ≤ x → sqrtOther x = Real.sqrt x) →
      fresnel sqrtOther cosTheta relIOR = fresnel Real.sqrt cosTheta relIOR) ∧
    (∀ (cos sin : ℝ → ℝ) (TWO_PI SQRT_OF_ONE_THIRD : ℝ)
        (makeOffsetedRay : Vec3 ℝ → Vec3 ℝ → Ray ℝ) (pathSegment : PathSegment ℝ)
        (intersect normal : Vec3 ℝ) (outside : Bool) (mat : Material ℝ)
        (rng : RandomEngine ℝ),
      mat.type = Material.Dielectric →
      length Real.sqrt normal = 1 →
      length Real.sqrt pathSegment.ray.direction = 1 →
      dot (-pathSegment.ray.direction) normal = cosTheta →
      (if outside then mat.indexOfRefraction else 1 / mat.indexOfRefraction) = relIOR →
      (u01 rng).1 = u →
      ¬ u ≤ fresnel Real.sqrt cosTheta relIOR →
      (scatterRay Real.sqrt cos sin TWO_PI SQRT_OF_ONE_THIRD makeOffsetedRay pathSegment
          intersect normal outside mat rng).1.ray
        = makeOffsetedRay intersect
            (normalize Real.sqrt
              (refract Real.sqrt pathSegment.ray.direction normal relIOR)) ∧
      0 < 1 - relIOR ^ 2 * (1 - cosTheta ^ 2) ∧
      refract Real.sqrt pathSegment.ray.direction normal relIOR ≠ 0 ∧
      length Real.sqrt (refract Real.sqrt pathSegment.ray.direction normal relIOR)
        ≠ 0) := by
  have _ := hle
  have _ := hior
  refine ⟨?_, ?_, ?_⟩
  · intro _ h2
    linarith [not_lt.mp h2]
  · intro sqrtOther h
    exact fresnel_sqrt_congr sqrtOther Real.sqrt h cosTheta relIOR
  · intro cos sin TWO_PI SQRT_OF_ONE_THIRD makeOffsetedRay pathSegment intersect normal
      outside mat rng hdielectric hnormal hdir hcos heta hdraw hrefract
    have hn := Vec3.dot_self_of_length normal hnormal
    have hd := Vec3.dot_self_of_length pathSegment.ray.direction hdir
    have hk := radicand_pos_of_refraction cosTheta relIOR u hpos hu.2.le hrefract
    have hc : dot pathSegment.ray.direction normal = -cosTheta := by
      rw [← hcos, Vec3.dot_neg_left, neg_neg]
    have hself := Vec3.dot_refracted_self pathSegment.ray.direction normal relIOR cosTheta
      (Real.sqrt (1 - relIOR * relIOR * (1 - cosTheta * cosTheta))) hn hd hc
      (Real.mul_self_sqrt hk.le)
    have hk' : 0 ≤ 1 - relIOR * relIOR * (1 - dot (-pathSegment.ray.direction) normal
        * dot (-pathSegment.ray.direction) normal) := by
      rw [hcos]; exact hk.le
    have hform := Vec3.refract_eq pathSegment.ray.direction normal relIOR hk'
    rw [hcos] at hform
    rw [← hform] at hself
    refine ⟨?_, ?_, ?_, ?_⟩
    · have hray := scatterRay_dielectric_ray Real.sqrt cos sin TWO_PI SQRT_OF_ONE_THIRD
        makeOffsetedRay pathSegment intersect normal outside mat rng hdielectric
      rw [heta, hcos, hdraw, if_neg hrefract] at hray
      exact hray
    · have e : 1 - relIOR ^ 2 * (1 - cosTheta ^ 2)
          = 1 - relIOR * relIOR * (1 - cosTheta * cosTheta) := by ring
      rw [e]; exact hk
    · intro h0
      rw [h0] at hself
      simp [dot] at hself
    · unfold length
      rw [hself, Real.sqrt_one]
      exact one_ne_zero

/-- Instance of C15: normal incidence from outside on glass of stored index 2
with the draw `u = 1/2`, which refracts. -/
theorem scatterRay_no_sqrt_of_negative_witness :
    (0 : ℝ) < 1 ∧ (1 : ℝ) ≤ 1 ∧ (0 : ℝ) < 2 ∧ ((0 : ℝ) ≤ 1 / 2 ∧ (1 / 2 : ℝ) < 1) ∧
    ¬ (1 / 2 : ℝ) ≤ fresnel Real.sqrt 1 2 ∧
    (0 : ℝ) < 1 - 2 ^ 2 * (1 - 1 ^ 2) ∧
    refract Real.sqrt (⟨0, 0, -1⟩ : Vec3 ℝ) ⟨0, 0, 1⟩ 2 ≠ 0 ∧
    length Real.sqrt (refract Real.sqrt (⟨0, 0, -1⟩ : Vec3 ℝ) ⟨0, 0, 1⟩ 2) ≠ 0 :=
  ⟨one_pos, le_refl 1, by norm_num, by norm_num, by norm_num [fresnel],
    ((scatterRay_no_sqrt_of_negative 1 2 (1 / 2) one_pos (le_refl 1) (by norm_num)
      (by norm_num)).2.2 Real.cos Real.sin (2 * Real.pi) (Real.sqrt (1 / 3))
      (fun o d => ⟨o, d⟩)
      ⟨⟨⟨0, 0, 1⟩, ⟨0, 0, -1⟩⟩, ⟨1, 1, 1⟩, ⟨0, 0, 0⟩, 8⟩
      ⟨0, 0, 0⟩ ⟨0, 0, 1⟩ true
      ⟨Material.Dielectric, ⟨1, 1, 1⟩, ⟨0, 0, 0⟩, 2⟩
      ⟨fun _ => 1 / 2, 0⟩ rfl (by simp [length, dot]) (by simp [length, dot])
      (by simp [dot]) rfl rfl (by norm_num [fresnel])).2⟩

/-! ## Claims about the new ray of a diffuse bounce -/

/-- C17, as amended. The emission gate is only an optimisation for emittances
without a negative component: for every path segment and every material whose
emittance components are all `≥ 0`, the radiance `scatterRay` produces with its
gated accumulation equals the radiance produced by adding
`throughput ⊙ emittance` unconditionally. -/
theorem scatterRay_emission_gate_refines (sqrt cos sin : ℝ → ℝ)
    (TWO_PI SQRT_OF_ONE_THIRD : ℝ) (makeOffsetedRay : Vec3 ℝ → Vec3 ℝ → Ray ℝ)
    (pathSegment : PathSegment ℝ) (intersect normal : Vec3 ℝ) (outside : Bool)
    (mat : Material ℝ) (rng : RandomEngine ℝ)
    (hnonneg : 0 ≤ mat.emittance.x ∧ 0 ≤ mat.emittance.y ∧ 0 ≤ mat.emittance.z) :
    (scatterRay sqrt cos sin TWO_PI SQRT_OF_ONE_THIRD makeOffsetedRay pathSegment
        intersect normal outside mat rng).1.radiance
      = radianceAddedUnconditionally pathSegment mat := by
  have hrad : (scatterRay sqrt cos sin TWO_PI SQRT_OF_ONE_THIRD makeOffsetedRay
      pathSegment intersect normal outside mat rng).1.radiance
      = if vecElementPositive mat.emittance then
          pathSegment.radiance + pathSegment.throughput * mat.emittance
        else pathSegment.radiance := by
    unfold scatterRay
    split_ifs <;> rfl
  rw [hrad]
  unfold radianceAddedUnconditionally
  by_cases hp : vecElementPositive mat.emittance = true
  · rw [if_pos hp]
  · rw [if_neg hp]
    have hz : ¬ (mat.emittance.x > 0 ∨ mat.emittance.y > 0 ∨ mat.emittance.z > 0) := by
      simpa [vecElementPositive] using hp
    have hx : mat.emittance.x = 0 :=
      le_antisymm (not_lt.mp (fun h => hz (Or.inl h))) hnonneg.1
    have hy : mat.emittance.y = 0 :=
      le_antisymm (not_lt.mp (fun h => hz (Or.inr (Or.inl h)))) hnonneg.2.1
    have hzz : mat.emittance.z = 0 :=
      le_antisymm (not_lt.mp (fun h => hz (Or.inr (Or.inr h)))) hnonneg.2.2
    ext <;> simp [hx, hy, hzz]

/-- Instance of C17 as amended: a mirror that emits nothing. -/
theorem scatterRay_emission_gate_refines_witness :
    ((0 : ℝ) ≤ 0 ∧ (0 : ℝ) ≤ 0 ∧ (0 : ℝ) ≤ 0) ∧
    (scatterRay Real.sqrt Real.cos Real.sin (2 * Real.pi) (Real.sqrt (1 / 3))
        (fun o d => ⟨o, d⟩)
        ⟨⟨⟨0, 0, 1⟩, ⟨0, 0, -1⟩⟩, ⟨1, 1, 1⟩, ⟨5, 6, 7⟩, 8⟩
        ⟨0, 0, 0⟩ ⟨0, 0, 1⟩ true
        ⟨Material.Mirror, ⟨1, 1, 1⟩, ⟨0, 0, 0⟩, 1⟩
        ⟨fun _ => 0, 0⟩).1.radiance
      = radianceAddedUnconditionally
          ⟨⟨⟨0, 0, 1⟩, ⟨0, 0, -1⟩⟩, ⟨1, 1, 1⟩, ⟨5, 6, 7⟩, 8⟩
          ⟨Material.Mirror, ⟨1, 1, 1⟩, ⟨0, 0, 0⟩, 1⟩ :=
  ⟨⟨le_refl 0, le_refl 0, le_refl 0⟩,
    scatterRay_emission_gate_refines Real.sqrt Real.cos Real.sin (2 * Real.pi)
      (Real.sqrt (1 / 3)) (fun o d => ⟨o, d⟩)
      ⟨⟨⟨0, 0, 1⟩, ⟨0, 0, -1⟩⟩, ⟨1, 1, 1⟩, ⟨5, 6, 7⟩, 8⟩
      ⟨0, 0, 0⟩ ⟨0, 0, 1⟩ true
      ⟨Material.Mirror, ⟨1, 1, 1⟩, ⟨0, 0, 0⟩, 1⟩
      ⟨fun _ => 0, 0⟩ ⟨le_refl 0, le_refl 0, le_refl 0⟩⟩

/-- C17, counterexample. A mirror of emittance `(-1,0,0)` met with throughput
`(1,1,1)` and radiance `(5,6,7)`: the gate stays shut and the radiance stays
`(5,6,7)`, while adding unconditionally gives `(4,6,7)`. -/
theorem scatterRay_emission_gate_differs :
    (scatterRay Real.sqrt Real.cos Real.sin (2 * Real.pi) (Real.sqrt (1 / 3))
        (fun o d => ⟨o, d⟩)
        ⟨⟨⟨0, 0, 1⟩, ⟨0, 0, -1⟩⟩, ⟨1, 1, 1⟩, ⟨5, 6, 7⟩, 8⟩
        ⟨0, 0, 0⟩ ⟨0, 0, 1⟩ true
        ⟨Material.Mirror, ⟨1, 1, 1⟩, ⟨-1, 0, 0⟩, 1⟩
        ⟨fun _ => 0, 0⟩).1.radiance = (⟨5, 6, 7⟩ : Vec3 ℝ) ∧
    radianceAddedUnconditionally
        ⟨⟨⟨0, 0, 1⟩, ⟨0, 0, -1⟩⟩, ⟨1, 1, 1⟩, ⟨5, 6, 7⟩, 8⟩
        ⟨Material.Mirror, ⟨1, 1, 1⟩, ⟨-1, 0, 0⟩, 1⟩ = (⟨4, 6, 7⟩ : Vec3 ℝ) ∧
    (scatterRay Real.sqrt Real.cos Real.sin (2 * Real.pi) (Real.sqrt (1 / 3))
        (fun o d => ⟨o, d⟩)
        ⟨⟨⟨0, 0, 1⟩, ⟨0, 0, -1⟩⟩, ⟨1, 1, 1⟩, ⟨5, 6, 7⟩, 8⟩
        ⟨0, 0, 0⟩ ⟨0, 0, 1⟩ true
        ⟨Material.Mirror, ⟨1, 1, 1⟩, ⟨-1, 0, 0⟩, 1⟩
        ⟨fun _ => 0, 0⟩).1.radiance
      ≠ radianceAddedUnconditionally
          ⟨⟨⟨0, 0, 1⟩, ⟨0, 0, -1⟩⟩, ⟨1, 1, 1⟩, ⟨5, 6, 7⟩, 8⟩
          ⟨Material.Mirror, ⟨1, 1, 1⟩, ⟨-1, 0, 0⟩, 1⟩ := by
  have h1 : (scatterRay Real.sqrt Real.cos Real.sin (2 * Real.pi) (Real.sqrt (1 / 3))
        (fun o d => ⟨o, d⟩)
        ⟨⟨⟨0, 0, 1⟩, ⟨0, 0, -1⟩⟩, ⟨1, 1, 1⟩, ⟨5, 6, 7⟩, 8⟩
        ⟨0, 0, 0⟩ ⟨0, 0, 1⟩ true
        ⟨Material.Mirror, ⟨1, 1, 1⟩, ⟨-1, 0, 0⟩, 1⟩
        ⟨fun _ => 0, 0⟩).1.radiance = (⟨5, 6, 7⟩ : Vec3 ℝ) := by
    simp [scatterRay, vecElementPositive, Material.Mirror, Material.Diffuse]
  have h2 : radianceAddedUnconditionally
        ⟨⟨⟨0, 0, 1⟩, ⟨0, 0, -1⟩⟩, ⟨1, 1, 1⟩, ⟨5, 6, 7⟩, 8⟩
        ⟨Material.Mirror, ⟨1, 1, 1⟩, ⟨-1, 0, 0⟩, 1⟩ = (⟨4, 6, 7⟩ : Vec3 ℝ) := by
    unfold radianceAddedUnconditionally
    ext <;> norm_num
  refine ⟨h1, h2, ?_⟩
  rw [h1, h2]
  intro h
  have hx := congrArg Vec3.x h
  norm_num at hx

/-- C20. Unrecognised material type: `Material.type` is a plain integer, and for
every material whose type is none of Diffuse (0), Mirror (1) and Dielectric (2),
`scatterRay` leaves the ray and the throughput as they were and draws nothing
from the random source; it only performs the emission accumulation and takes 1
from `remainingBounces`. -/
theorem scatterRay_unrecognised_type (sqrt cos sin : ℝ → ℝ)
    (TWO_PI SQRT_OF_ONE_THIRD : ℝ) (makeOffsetedRay : Vec3 ℝ → Vec3 ℝ → Ray ℝ)
    (pathSegment : PathSegment ℝ) (intersect normal : Vec3 ℝ) (outside : Bool)
    (mat : Material ℝ) (rng : RandomEngine ℝ)
    (htype : mat.type ≠ 0 ∧ mat.type ≠ 1 ∧ mat.type ≠ 2) :
    Material.Diffuse = 0 ∧ Material.Mirror = 1 ∧ Material.Dielectric = 2 ∧
    scatterRay sqrt cos sin TWO_PI SQRT_OF_ONE_THIRD makeOffsetedRay pathSegment
        intersect normal outside mat rng
      = (⟨pathSegment.ray, pathSegment.throughput,
          if vecElementPositive mat.emittance then
            pathSegment.radiance + pathSegment.throughput * mat.emittance
          else pathSegment.radiance,
          pathSegment.remainingBounces - 1⟩, rng) := by
  refine ⟨rfl, rfl, rfl, ?_⟩
  unfold scatterRay
  have h0 : ¬ mat.type = Material.Diffuse := htype.1
  have h1 : ¬ mat.type = Material.Mirror := htype.2.1
  have h2 : ¬ mat.type = Material.Dielectric := htype.2.2
  simp only [if_neg h0, if_neg h1, if_neg h2]

/-- Instance of C20: a material of type 7. -/
theorem scatterRay_unrecognised_type_witness :
    ((7 : Int) ≠ 0 ∧ (7 : Int) ≠ 1 ∧ (7 : Int) ≠ 2) ∧
    (scatterRay Real.sqrt Real.cos Real.sin (2 * Real.pi) (Real.sqrt (1 / 3))
        (fun o d => ⟨o, d⟩)
        ⟨⟨⟨0, 0, 1⟩, ⟨0, 0, -1⟩⟩, ⟨1, 1, 1⟩, ⟨5, 6, 7⟩, 8⟩
        ⟨0, 0, 0⟩ ⟨0, 0, 1⟩ true
        ⟨7, ⟨1 / 2, 1 / 2, 1 / 2⟩, ⟨0, 0, 0⟩, 1⟩
        ⟨fun _ => 0, 3⟩).2.drawn = 3 :=
  ⟨by decide,
    congrArg (fun r => r.2.drawn)
      (scatterRay_unrecognised_type Real.sqrt Real.cos Real.sin (2 * Real.pi)
        (Real.sqrt (1 / 3)) (fun o d => ⟨o, d⟩)
        ⟨⟨⟨0, 0, 1⟩, ⟨0, 0, -1⟩⟩, ⟨1, 1, 1⟩, ⟨5, 6, 7⟩, 8⟩
        ⟨0, 0, 0⟩ ⟨0, 0, 1⟩ true
        ⟨7, ⟨1 / 2, 1 / 2, 1 / 2⟩, ⟨0, 0, 0⟩, 1⟩
        ⟨fun _ => 0, 3⟩ (by decide)).2.2.2⟩

/-! ## Claims about the reference axis -/

/-- The threshold written as a quotient. -/
theorem sqrt_one_third_eq : Real.sqrt (1 / 3) = 1 / Real.sqrt 3 := by
  rw [one_div, Real.sqrt_inv, one_div]

/-- The square of the threshold. -/
theorem sqrt_one_third_mul_self : Real.sqrt (1 / 3) * Real.sqrt (1 / 3) = 1 / 3 :=
  Real.mul_self_sqrt (by norm_num)

/-- A number whose square is a third has magnitude the threshold. -/
theorem abs_eq_sqrt_one_third (a : ℝ) (h : a * a = 1 / 3) : |a| = Real.sqrt (1 / 3) := by
  rw [← h, Real.sqrt_mul_self_eq_abs]

/-- C16, as amended. Reference-axis choice: for every normal of length one, the
world axis the sampler picks as `directionNotNormal` (x if `|normal.x| < sqrt(1/3)`,
else y if `|normal.y| < sqrt(1/3)`, else z) has a component along the normal of
magnitude at most `sqrt(1/3) = 1/sqrt(3)`, and of magnitude below it unless the
three components of the normal all have magnitude exactly `sqrt(1/3)`.  It is the
first axis in the order x, y, z below the threshold, not the axis of smallest
absolute inner product with the normal. -/
theorem directionNotNormal_choice (normal : Vec3 ℝ)
    (hnormal : length Real.sqrt normal = 1) :
    (|normal.x| < Real.sqrt (1 / 3) →
      directionNotNormal (Real.sqrt (1 / 3)) normal = ⟨1, 0, 0⟩) ∧
    (¬ |normal.x| < Real.sqrt (1 / 3) → |normal.y| < Real.sqrt (1 / 3) →
      directionNotNormal (Real.sqrt (1 / 3)) normal = ⟨0, 1, 0⟩) ∧
    (¬ |normal.x| < Real.sqrt (1 / 3) → ¬ |normal.y| < Real.sqrt (1 / 3) →
      directionNotNormal (Real.sqrt (1 / 3)) normal = ⟨0, 0, 1⟩) ∧
    |dot normal (directionNotNormal (Real.sqrt (1 / 3)) normal)| ≤ Real.sqrt (1 / 3) ∧
    (|dot normal (directionNotNormal (Real.sqrt (1 / 3)) normal)| < Real.sqrt (1 / 3) ∨
      (|normal.x| = Real.sqrt (1 / 3) ∧ |normal.y| = Real.sqrt (1 / 3)
        ∧ |normal.z| = Real.sqrt (1 / 3))) ∧
    Real.sqrt (1 / 3) = 1 / Real.sqrt 3 := by
  have hn := Vec3.dot_self_of_length normal hnormal
  simp only [dot] at hn
  have hSS := sqrt_one_third_mul_self
  have hS0 : 0 ≤ Real.sqrt (1 / 3) := Real.sqrt_nonneg _
  refine ⟨?_, ?_, ?_, ?_, ?_, sqrt_one_third_eq⟩
  · intro hx
    unfold directionNotNormal
    rw [if_pos hx]
  · intro hx hy
    unfold directionNotNormal
    rw [if_neg hx, if_pos hy]
  · intro hx hy
    unfold directionNotNormal
    rw [if_neg hx, if_neg hy]
  · unfold directionNotNormal
    by_cases hx : |normal.x| < Real.sqrt (1 / 3)
    · rw [if_pos hx]
      simpa [dot] using hx.le
    · rw [if_neg hx]
      by_cases hy : |normal.y| < Real.sqrt (1 / 3)
      · rw [if_pos hy]
        simpa [dot] using hy.le
      · rw [if_neg hy]
        have hx2 := mul_self_le_mul_self hS0 (not_lt.mp hx)
        have hy2 := mul_self_le_mul_self hS0 (not_lt.mp hy)
        rw [abs_mul_abs_self, hSS] at hx2 hy2
        have hz : |normal.z| ≤ Real.sqrt (1 / 3) :=
          Real.abs_le_sqrt (by nlinarith)
        simpa [dot] using hz
  · unfold directionNotNormal
    by_cases hx : |normal.x| < Real.sqrt (1 / 3)
    · rw [if_pos hx]
      left
      simpa [dot] using hx
    · rw [if_neg hx]
      by_cases hy : |normal.y| < Real.sqrt (1 / 3)
      · rw [if_pos hy]
        left
        simpa [dot] using hy
      · rw [if_neg hy]
        have hx2 := mul_self_le_mul_self hS0 (not_lt.mp hx)
        have hy2 := mul_self_le_mul_self hS0 (not_lt.mp hy)
        rw [abs_mul_abs_self, hSS] at hx2 hy2
        by_cases hz : |normal.z| < Real.sqrt (1 / 3)
        · left
          simpa [dot] using hz
        · right
          have hz2 := mul_self_le_mul_self hS0 (not_lt.mp hz)
          rw [abs_mul_abs_self, hSS] at hz2
          exact ⟨abs_eq_sqrt_one_third _ (by linarith),
            abs_eq_sqrt_one_third _ (by linarith),
            abs_eq_sqrt_one_third _ (by linarith)⟩

/-- Instance of C16 as amended: the normal `(3/7, 2/7, 6/7)`. -/
theorem directionNotNormal_choice_witness :
    length Real.sqrt (⟨3 / 7, 2 / 7, 6 / 7⟩ : Vec3 ℝ) = 1 ∧
    |dot (⟨3 / 7, 2 / 7, 6 / 7⟩ : Vec3 ℝ)
        (directionNotNormal (Real.sqrt (1 / 3)) ⟨3 / 7, 2 / 7, 6 / 7⟩)|
      ≤ Real.sqrt (1 / 3) :=
  ⟨by norm_num [length, dot],
    (directionNotNormal_choice ⟨3 / 7, 2 / 7, 6 / 7⟩ (by norm_num [length, dot])).2.2.2.1⟩

/-- C16, counterexample. For the unit normal `(3/7, 2/7, 6/7)` the sampler picks
the x axis although the y axis has the smaller absolute inner product with the
normal; and for the unit normal whose three components are `sqrt(1/3)` it picks
the z axis, whose component along the normal is not below `sqrt(1/3)`. -/
theorem directionNotNormal_not_smallest :
    (length Real.sqrt (⟨3 / 7, 2 / 7, 6 / 7⟩ : Vec3 ℝ) = 1 ∧
      directionNotNormal (Real.sqrt (1 / 3)) (⟨3 / 7, 2 / 7, 6 / 7⟩ : Vec3 ℝ)
        = ⟨1, 0, 0⟩ ∧
      |dot (⟨3 / 7, 2 / 7, 6 / 7⟩ : Vec3 ℝ) ⟨0, 1, 0⟩|
        < |dot (⟨3 / 7, 2 / 7, 6 / 7⟩ : Vec3 ℝ)
            (directionNotNormal (Real.sqrt (1 / 3)) ⟨3 / 7, 2 / 7, 6 / 7⟩)|) ∧
    (length Real.sqrt
        (⟨Real.sqrt (1 / 3), Real.sqrt (1 / 3), Real.sqrt (1 / 3)⟩ : Vec3 ℝ) = 1 ∧
      directionNotNormal (Real.sqrt (1 / 3))
          (⟨Real.sqrt (1 / 3), Real.sqrt (1 / 3), Real.sqrt (1 / 3)⟩ : Vec3 ℝ)
        = ⟨0, 0, 1⟩ ∧
      ¬ |dot (⟨Real.sqrt (1 / 3), Real.sqrt (1 / 3), Real.sqrt (1 / 3)⟩ : Vec3 ℝ)
            (directionNotNormal (Real.sqrt (1 / 3))
              ⟨Real.sqrt (1 / 3), Real.sqrt (1 / 3), Real.sqrt (1 / 3)⟩)|
          < 1 / Real.sqrt 3) := by
  have hlt : |(3 / 7 : ℝ)| < Real.sqrt (1 / 3) := by
    rw [abs_of_nonneg (by norm_num)]
    exact Real.lt_sqrt_of_sq_lt (by norm_num)
  have hS0 : 0 ≤ Real.sqrt (1 / 3) := Real.sqrt_nonneg _
  have hself : ¬ |Real.sqrt (1 / 3)| < Real.sqrt (1 / 3) := by
    rw [abs_of_nonneg hS0]
    exact lt_irrefl _
  have hax1 : directionNotNormal (Real.sqrt (1 / 3)) (⟨3 / 7, 2 / 7, 6 / 7⟩ : Vec3 ℝ)
      = ⟨1, 0, 0⟩ := by
    unfold directionNotNormal
    rw [if_pos hlt]
  have hax2 : directionNotNormal (Real.sqrt (1 / 3))
      (⟨Real.sqrt (1 / 3), Real.sqrt (1 / 3), Real.sqrt (1 / 3)⟩ : Vec3 ℝ)
      = ⟨0, 0, 1⟩ := by
    unfold directionNotNormal
    rw [if_neg hself, if_neg hself]
  refine ⟨⟨by norm_num [length, dot], hax1, ?_⟩, ⟨?_, hax2, ?_⟩⟩
  · rw [hax1]
    norm_num [dot, abs_of_nonneg]
  · unfold length
    have e : dot (⟨Real.sqrt (1 / 3), Real.sqrt (1 / 3), Real.sqrt (1 / 3)⟩ : Vec3 ℝ)
        ⟨Real.sqrt (1 / 3), Real.sqrt (1 / 3), Real.sqrt (1 / 3)⟩ = 1 := by
      simp only [dot]
      linarith [sqrt_one_third_mul_self]
    rw [e, Real.sqrt_one]
  · rw [hax2, ← sqrt_one_third_eq]
    simpa [dot] using hself

/-! ## Further claims about `fresnel` -/

/-- Value of `fresnel` past its two early returns. -/
theorem fresnel_of_transmission (c r : ℝ) (hr : r ≠ 1)
    (hs : ¬ r * r * (1 - c * c) > 1) :
    fresnel Real.sqrt c r
      = ((r * c - Real.sqrt (1 - r * r * (1 - c * c)))
            / (r * c + Real.sqrt (1 - r * r * (1 - c * c)))
          * ((r * c - Real.sqrt (1 - r * r * (1 - c * c)))
            / (r * c + Real.sqrt (1 - r * r * (1 - c * c))))
        + (c - r * Real.sqrt (1 - r * r * (1 - c * c)))
            / (c + r * Real.sqrt (1 - r * r * (1 - c * c)))
          * ((c - r * Real.sqrt (1 - r * r * (1 - c * c)))
            / (c + r * Real.sqrt (1 - r * r * (1 - c * c))))) / 2 := by
  unfold fresnel
  rw [if_neg hr]
  simp only [if_neg hs]

/-- C19. Fresnel at normal incidence: for every `RelIOR > 0`,
`fresnel 1 RelIOR = ((RelIOR - 1) / (RelIOR + 1))²`, the classical reflectance at
normal incidence; in particular `fresnel 1 RelIOR = fresnel 1 (1 / RelIOR)`. -/
theorem fresnel_normal_incidence (RelIOR : ℝ) (hior : 0 < RelIOR) :
    fresnel Real.sqrt 1 RelIOR = ((RelIOR - 1) / (RelIOR + 1)) ^ 2 ∧
    fresnel Real.sqrt 1 RelIOR = fresnel Real.sqrt 1 (1 / RelIOR) := by
  have key : ∀ r : ℝ, 0 < r → fresnel Real.sqrt 1 r = ((r - 1) / (r + 1)) ^ 2 := by
    intro r hr
    by_cases h1 : r = 1
    · subst h1
      unfold fresnel
      rw [if_pos rfl]
      norm_num
    · have hs : ¬ r * r * (1 - 1 * 1) > 1 := by norm_num
      rw [fresnel_of_transmission 1 r h1 hs]
      have e : Real.sqrt (1 - r * r * (1 - 1 * 1)) = 1 := by
        rw [show (1 : ℝ) - r * r * (1 - 1 * 1) = 1 by ring, Real.sqrt_one]
      rw [e]
      have hne : r + 1 ≠ 0 := by linarith
      have hne2 : 1 + r ≠ 0 := by linarith
      field_simp
      ring
  refine ⟨key RelIOR hior, ?_⟩
  rw [key RelIOR hior, key (1 / RelIOR) (by positivity)]
  have hne : RelIOR + 1 ≠ 0 := by linarith
  have hne0 : RelIOR ≠ 0 := hior.ne'
  field_simp
  ring

/-- Instance of C19: `RelIOR = 2`, reflectance `1/9`. -/
theorem fresnel_normal_incidence_witness :
    (0 : ℝ) < 2 ∧ fresnel Real.sqrt 1 2 = (((2 : ℝ) - 1) / (2 + 1)) ^ 2 :=
  ⟨by norm_num, (fresnel_normal_incidence 2 (by norm_num)).1⟩

/-- C18. Fresnel reciprocity: for every `cosThetaI` in `(0,1]` and `RelIOR > 0`
with `RelIOR² (1 - cosThetaI²) < 1`, with `cosThetaO = sqrt(1 - RelIOR² (1 - cosThetaI²))`
the transmitted cosine, `fresnel cosThetaO (1 / RelIOR) = fresnel cosThetaI RelIOR`:
crossing the interface backwards along the refracted ray meets the same
reflectance. -/
theorem fresnel_reciprocity (cosThetaI RelIOR : ℝ) (hpos : 0 < cosThetaI)
    (hle : cosThetaI ≤ 1) (hior : 0 < RelIOR)
    (hlt : RelIOR ^ 2 * (1 - cosThetaI ^ 2) < 1) :
    fresnel Real.sqrt (Real.sqrt (1 - RelIOR ^ 2 * (1 - cosThetaI ^ 2))) (1 / RelIOR)
      = fresnel Real.sqrt cosThetaI RelIOR := by
  have _ := hle
  by_cases h1 : RelIOR = 1
  · subst h1
    unfold fresnel
    rw [if_pos (by norm_num), if_pos rfl]
  · have e : 1 - RelIOR ^ 2 * (1 - cosThetaI ^ 2)
        = 1 - RelIOR * RelIOR * (1 - cosThetaI * cosThetaI) := by ring
    have hk : 0 < 1 - RelIOR * RelIOR * (1 - cosThetaI * cosThetaI) := by
      rw [← e]; linarith
    rw [e]
    have hw := Real.mul_self_sqrt hk.le
    have hw0 := Real.sqrt_pos.mpr hk
    have hinv : (1 / RelIOR) ≠ 1 := by
      intro h
      apply h1
      field_simp at h
      exact h.symm
    have hs : ¬ RelIOR * RelIOR * (1 - cosThetaI * cosThetaI) > 1 := by
      linarith
    have hback : 1 / RelIOR * (1 / RelIOR)
        * (1 - Real.sqrt (1 - RelIOR * RelIOR * (1 - cosThetaI * cosThetaI))
            * Real.sqrt (1 - RelIOR * RelIOR * (1 - cosThetaI * cosThetaI)))
        = 1 - cosThetaI * cosThetaI := by
      rw [hw]
      field_simp
    have hs2 : ¬ 1 / RelIOR * (1 / RelIOR)
        * (1 - Real.sqrt (1 - RelIOR * RelIOR * (1 - cosThetaI * cosThetaI))
            * Real.sqrt (1 - RelIOR * RelIOR * (1 - cosThetaI * cosThetaI))) > 1 := by
      rw [hback]
      nlinarith [mul_pos hpos hpos]
    rw [fresnel_of_transmission _ _ hinv hs2, fresnel_of_transmission _ _ h1 hs, hback]
    have hc : Real.sqrt (1 - (1 - cosThetaI * cosThetaI)) = cosThetaI := by
      rw [show (1 : ℝ) - (1 - cosThetaI * cosThetaI) = cosThetaI * cosThetaI by ring]
      exact Real.sqrt_mul_self hpos.le
    rw [hc]
    generalize Real.sqrt (1 - RelIOR * RelIOR * (1 - cosThetaI * cosThetaI)) = w at hw0
    have hd1 : RelIOR * cosThetaI + w ≠ 0 := by positivity
    have hd2 : cosThetaI + RelIOR * w ≠ 0 := by positivity
    have hd3 : w + RelIOR * cosThetaI ≠ 0 := by positivity
    have hd4 : RelIOR * w + cosThetaI ≠ 0 := by positivity
    have hr0 : RelIOR ≠ 0 := hior.ne'
    field_simp
    ring

/-- Instance of C18: `cosThetaI = 1`, `RelIOR = 2`, where the transmitted cosine
is `sqrt 1`. -/
theorem fresnel_reciprocity_witness :
    (0 : ℝ) < 1 ∧ (1 : ℝ) ≤ 1 ∧ (0 : ℝ) < 2 ∧ (2 : ℝ) ^ 2 * (1 - 1 ^ 2) < 1 ∧
    fresnel Real.sqrt (Real.sqrt (1 - (2 : ℝ) ^ 2 * (1 - 1 ^ 2))) (1 / 2)
      = fresnel Real.sqrt 1 2 :=
  ⟨one_pos, le_refl 1, by norm_num, by norm_num,
    fresnel_reciprocity 1 2 one_pos (le_refl 1) (by norm_num) (by norm_num)⟩

end PathTracer
